import Mathlib

/-!
Verification of the nao-read-sizer orchestrator: a shallow embedding of
`scripts/generate_samplesheet.py` (the work-unit resolver) and
`submit_batch_jobs.py` (the job submitter and supervisor), with theorems
checking the stated properties of the matching/filtering algorithm and the
submit-track-retry loop.
-/

namespace ReadSizer

/-- A sample-sheet row / work unit: `{id, fastq_1, fastq_2, outdir}`. -/
structure Sample where
  id : String
  fastq_1 : String
  fastq_2 : String
  outdir : String
deriving DecidableEq, Repr

/-! ### Python string primitives

The Python code uses `str.endswith`, slicing `f[:-n]`, `str.replace`,
`"_chunk" in f` / `f.partition("_chunk")[0]`, `str.strip`, `splitlines`
and whitespace `split()`.  Each is embedded as a character-list function
so that every definition is kernel-computable. -/

/-- Python `s.endswith(t)`. -/
def pyEndsWith (s t : String) : Bool := decide (t.data <:+ s.data)

/-- Python `s[:-n]` for `n ≤ len(s)` (drop the last `n` characters). -/
def pyDropRight (s : String) (n : Nat) : String := ⟨s.data.take (s.data.length - n)⟩

/-- Python `s.strip()`. -/
def pyStrip (l : List Char) : List Char :=
  ((l.dropWhile Char.isWhitespace).reverse.dropWhile Char.isWhitespace).reverse

/-- Python `s.splitlines()` on newline characters (accumulator state machine). -/
def splitLinesAux (cur : List Char) : List Char → List (List Char)
  | [] => [cur.reverse]
  | c :: rest =>
    if c = '\n' then cur.reverse :: splitLinesAux [] rest
    else splitLinesAux (c :: cur) rest

/-- Python no-argument `s.split()`: whitespace-separated words, empties dropped. -/
def pyWordsAux (cur : List Char) : List Char → List (List Char)
  | [] => if cur.isEmpty then [] else [cur.reverse]
  | c :: rest =>
    if c.isWhitespace then
      if cur.isEmpty then pyWordsAux [] rest else cur.reverse :: pyWordsAux [] rest
    else pyWordsAux (c :: cur) rest

/-- Characters before the first occurrence of `"_chunk"`, or `none` when the
marker is absent: Python `"_chunk" in f` together with `f.partition("_chunk")[0]`. -/
def beforeChunk : List Char → Option (List Char)
  | [] => none
  | c :: rest =>
    if ("_chunk".data).isPrefixOf (c :: rest) then some []
    else (beforeChunk rest).map (c :: ·)

/-- The completed id claimed by one done-listing filename, if any. -/
def chunkId (f : String) : Option String := (beforeChunk f.data).map (⟨·⟩)

/-- Python `fastq_path.replace("/raw/", "/siz/")`: leftmost, non-overlapping. -/
def replaceRawSiz : List Char → List Char
  | '/' :: 'r' :: 'a' :: 'w' :: '/' :: rest => '/' :: 's' :: 'i' :: 'z' :: '/' :: replaceRawSiz rest
  | c :: rest => c :: replaceRawSiz rest
  | [] => []

/-- Python `re.sub(r"/[^/]+$", "/", s)`: drop a trailing filename segment,
keeping the slash; no change when `s` ends in `/` or contains no slash. -/
def stripLastSegment (s : List Char) : List Char :=
  let r := s.reverse
  let seg := r.takeWhile (· != '/')
  if seg.length = 0 ∨ seg.length = r.length then s
  else (r.drop seg.length).reverse

/-- `infer_output_dir`: replace `"/raw/"` with `"/siz/"` in the path and remove
the filename to get just the directory. -/
def infer_output_dir (fastq_path : String) : String :=
  ⟨stripLastSegment (replaceRawSiz fastq_path.data)⟩

/-! ### Directory listing (`list_s3_files`)

The AWS CLI call is the external directory lister; it is modelled as an
oracle `run_aws : path → no_sign_request → Option stdout` where `none` is a
`subprocess.CalledProcessError`.  On error the Python code exits with
status 1 when `allow_missing` is false (modelled as `Except.error`) and
returns `[]` when it is true. -/

/-- Parse `aws s3 ls` stdout: last whitespace field of each line having at
least 4 fields (the loop body of `list_s3_files`). -/
def parseAwsLs (stdout : String) : List String :=
  (splitLinesAux [] (pyStrip stdout.data)).filterMap fun line =>
    let parts := pyWordsAux [] line
    if 4 ≤ parts.length then some ⟨parts.getLastD []⟩ else none

/-- `list_s3_files(s3_path, allow_missing, no_sign_request)`. -/
def list_s3_files (run_aws : String → Bool → Option String) (s3_path : String)
    (allow_missing : Bool) (no_sign_request : Bool) : Except String (List String) :=
  match run_aws s3_path no_sign_request with
  | some out => .ok (parseAwsLs out)
  | none => if allow_missing then .ok [] else .error s3_path

/-! ### Pairing (`generate_samplesheet`) -/

/-- The per-id record filled by `ids.setdefault(id, {})["R1"/"R2"] = path`. -/
structure Reads where
  R1 : Option String := none
  R2 : Option String := none
deriving DecidableEq, Repr

/-- Insert-or-update on an insertion-ordered association list (Python dict
assignment `m[k] = upd(m.get(k, {}))`, keeping the original key position). -/
def updateId (m : List (String × Reads)) (idv : String) (upd : Reads → Reads) :
    List (String × Reads) :=
  match m with
  | [] => [(idv, upd {})]
  | (k, v) :: rest =>
    if k = idv then (k, upd v) :: rest else (k, v) :: updateId rest idv upd

/-- First (hence unique) binding of `idv` in the `ids` dict. -/
def lookupId : List (String × Reads) → String → Option Reads
  | [], _ => none
  | (k, v) :: rest, idv => if k = idv then some v else lookupId rest idv

/-- The `R1` component recorded for `idv`. -/
def getR1 (m : List (String × Reads)) (idv : String) : Option String :=
  ((lookupId m idv).getD {}).R1

/-- The `R2` component recorded for `idv`. -/
def getR2 (m : List (String × Reads)) (idv : String) : Option String :=
  ((lookupId m idv).getD {}).R2

/-- One step of the raw-file loop of `generate_samplesheet` building `ids`. -/
def addRawFile (raw_dir : String) (m : List (String × Reads)) (f : String) :
    List (String × Reads) :=
  if pyEndsWith f "_1.fastq.gz" then
    updateId m (pyDropRight f 11) (fun r => { r with R1 := some (raw_dir ++ f) })
  else if pyEndsWith f "_2.fastq.gz" then
    updateId m (pyDropRight f 11) (fun r => { r with R2 := some (raw_dir ++ f) })
  else m

/-- The `ids` dict after scanning the raw listing. -/
def buildIds (raw_dir : String) (raw_files : List String) : List (String × Reads) :=
  raw_files.foldl (addRawFile raw_dir) []

/-- `ids_to_skip`: ids claimed complete by the done listing (empty when
`ignore_existing` is set). -/
def skipIds (siz_files : List String) (ignore_existing : Bool) : List String :=
  if ignore_existing then [] else siz_files.filterMap chunkId

/-- `if outdir: ... else: infer_output_dir(...)` — Python truthiness, so
`None` and the empty string both fall back to the inferred directory. -/
def sampleOutdir (outdir : Option String) (r1 : String) : String :=
  match outdir with
  | some o => if o = "" then infer_output_dir r1 else o
  | none => infer_output_dir r1

/-- The body of the sample-building loop of `generate_samplesheet` for one
`ids` entry: skip completed ids, emit complete pairs, drop incomplete ones
(with a warning in the source). -/
def emitSample (ids_to_skip : List String) (outdir : Option String)
    (e : String × Reads) : Option Sample :=
  if ids_to_skip.contains e.1 then none
  else
    match e.2.R1, e.2.R2 with
    | some r1, some r2 =>
      some { id := e.1, fastq_1 := r1, fastq_2 := r2
             outdir := sampleOutdir outdir r1 }
    | _, _ => none

def resolveSamples (raw_dir : String) (raw_files siz_files : List String)
    (outdir : Option String) (ignore_existing : Bool) : List Sample :=
  (buildIds raw_dir raw_files).filterMap
    (emitSample (skipIds siz_files ignore_existing) outdir)

/-- `generate_samplesheet(bucket, delivery, outdir, ignore_existing,
no_sign_request)`: list the raw prefix (mandatory) and the siz prefix
(optional), then pair and filter. -/
def generate_samplesheet (run_aws : String → Bool → Option String)
    (bucket delivery : String) (outdir : Option String)
    (ignore_existing : Bool) (no_sign_request : Bool) : Except String (List Sample) := do
  let raw_dir := "s3://" ++ bucket ++ "/" ++ delivery ++ "/raw/"
  let siz_dir := "s3://" ++ bucket ++ "/" ++ delivery ++ "/siz/"
  let raw_files ← list_s3_files run_aws raw_dir false no_sign_request
  let siz_files ← list_s3_files run_aws siz_dir true no_sign_request
  return resolveSamples raw_dir raw_files siz_files outdir ignore_existing

/-! ## `submit_batch_jobs.py`: submitter and supervisor

The AWS Batch client is the external batch runner; it is modelled by two
oracles: `submit : SubmitCall → String` (the handle assigned to one
`submit_job` request) and `describe : Nat → List String → List JobInfo`
(the response to the n-th `describe_jobs` call for a batch of handles).
The supervisor loop is given explicit round fuel; Python loops until the
tracked dict is empty (or an exception escapes). -/

/-- One AWS Batch `submit_job` request. -/
structure SubmitCall where
  jobName : String
  jobQueue : String
  jobDefinition : String
  command : List String
deriving DecidableEq, Repr

/-- The container command built by `submit_batch_job` (the f-string). -/
def sizerCommand (sample : Sample) (chunk_size zstd_level : Nat) : List String :=
  ["/bin/bash", "-c",
    "\n        sizer.sh -s /usr/local/bin/split_interleave_fastqs \\\n" ++
    "            -u /sequence_tools/compress_upload.sh \\\n" ++
    "            -c " ++ toString chunk_size ++ " \\\n" ++
    "            -l " ++ toString zstd_level ++ " \\\n" ++
    "            <(aws s3 cp " ++ sample.fastq_1 ++ " - | gunzip) \\\n" ++
    "            <(aws s3 cp " ++ sample.fastq_2 ++ " - | gunzip) \\\n" ++
    "            " ++ sample.id ++ " \\\n" ++
    "            " ++ sample.outdir ++ sample.id ++ "\n        "]

/-- `submit_batch_job`: returns the job handle together with the list of
external `submit_job` calls performed (empty in dry-run mode, where the
handle is the placeholder `"dry-run-" + id`). -/
def submit_batch_job (submit : SubmitCall → String) (sample : Sample)
    (job_queue job_definition : String) (chunk_size zstd_level : Nat)
    (dry_run : Bool) : String × List SubmitCall :=
  if dry_run then
    ("dry-run-" ++ sample.id, [])
  else
    let call : SubmitCall :=
      { jobName := "sizer-" ++ sample.id
        jobQueue := job_queue
        jobDefinition := job_definition
        command := sizerCommand sample chunk_size zstd_level }
    (submit call, [call])

/-- One tracked entry value: `{"sample": ..., "retry_count": ...}`. -/
structure PendingJob where
  sample : Sample
  retry_count : Nat
deriving DecidableEq, Repr

/-- `job_tracker`: an insertion-ordered dict from job handle to entry. -/
abbrev Tracker := List (String × PendingJob)

/-- Dict lookup `m[h]` (first, hence unique, binding of `h`). -/
def lookupKey : Tracker → String → Option PendingJob
  | [], _ => none
  | (k, v) :: rest, h => if k = h then some v else lookupKey rest h

/-- Dict deletion `del m[h]` (removes the binding of `h` if present). -/
def eraseKey : Tracker → String → Tracker
  | [], _ => []
  | (k, v) :: rest, h => if k = h then rest else (k, v) :: eraseKey rest h

/-- Dict assignment `m[h] = pj` (updates in place, else appends). -/
def insertKey : Tracker → String → PendingJob → Tracker
  | [], h, pj => [(h, pj)]
  | (k, v) :: rest, h, pj =>
    if k = h then (k, pj) :: rest else (k, v) :: insertKey rest h pj

/-- One element of a `describe_jobs` response. -/
structure JobInfo where
  jobId : String
  status : String
  statusReason : Option String
deriving DecidableEq, Repr

/-- The supervisor's state: the tracked dict, the printed lines, the log of
`describe_jobs` queries (one handle list per call), the `submit_job` calls
made during monitoring, their count, and whether a `KeyError` escaped. -/
structure MonState where
  tracker : Tracker
  out : List String
  dLog : List (List String)
  subs : List SubmitCall
  sCalls : Nat
  crashed : Bool
deriving DecidableEq, Repr

/-- The body of `for job_info in response['jobs']` in `monitor_jobs`.
`job_tracker[job_id]` on an untracked handle raises `KeyError` (modelled by
`crashed`, which freezes the state, as the exception escapes the loop). -/
def processInfo (submitO : Nat → String) (max_retries : Nat)
    (job_queue job_definition : String) (chunk_size zstd_level : Nat)
    (s : MonState) (job_info : JobInfo) : MonState :=
  if s.crashed then s else
  match lookupKey s.tracker job_info.jobId with
  | none => { s with crashed := true }
  | some pj =>
    let sample_id := pj.sample.id
    if job_info.status = "SUCCEEDED" then
      { s with out := s.out ++ ["✓ " ++ sample_id ++ " succeeded"]
               tracker := eraseKey s.tracker job_info.jobId }
    else if job_info.status = "FAILED" then
      let retry_count := pj.retry_count
      let reason := job_info.statusReason.getD "Unknown"
      if retry_count < max_retries then
        let res := submit_batch_job (fun _ => submitO s.sCalls) pj.sample
          job_queue job_definition chunk_size zstd_level false
        { s with
          out := s.out ++ ["↻ Retrying " ++ sample_id ++ " (attempt " ++
            toString (retry_count + 2) ++ "/" ++ toString (max_retries + 1) ++
            ") - Reason: " ++ reason]
          subs := s.subs ++ res.2
          sCalls := s.sCalls + 1
          tracker := eraseKey
            (insertKey s.tracker res.1 ⟨pj.sample, retry_count + 1⟩)
            job_info.jobId }
      else
        { s with
          out := s.out ++ ["✗ " ++ sample_id ++ " failed permanently after " ++
            toString (max_retries + 1) ++ " attempts - Reason: " ++ reason]
          tracker := eraseKey s.tracker job_info.jobId }
    else s

/-- Python `job_ids[i:i+n]` slicing loop `for i in range(0, len(job_ids), n)`
(for `n ≥ 1`); the list-length fuel makes the recursion structural. -/
def chunksOfAux (n : Nat) : Nat → List String → List (List String)
  | _, [] => []
  | 0, l => [l]
  | fuel + 1, x :: xs => ((x :: xs).take n) :: chunksOfAux n fuel (xs.drop (n - 1))

/-- Batches of at most `n` handles, in order. -/
def chunksOf (n : Nat) (l : List String) : List (List String) :=
  chunksOfAux n l.length l

/-- The body of the `for i in range(0, len(job_ids), 100)` loop: one
`describe_jobs` call for one batch of handles, then classification of every
returned job.  A pending exception (`crashed`) skips the call, as the
exception would already have escaped the loop. -/
def pollBatch (describe : Nat → List String → List JobInfo)
    (submitO : Nat → String) (max_retries : Nat)
    (job_queue job_definition : String) (chunk_size zstd_level : Nat)
    (s : MonState) (batch_ids : List String) : MonState :=
  if s.crashed then s
  else
    let response := describe s.dLog.length batch_ids
    response.foldl
      (processInfo submitO max_retries job_queue job_definition
        chunk_size zstd_level)
      { s with dLog := s.dLog ++ [batch_ids] }

/-- One iteration of the `while job_tracker:` loop: snapshot the keys, query
them in batches of 100, and classify every returned job. -/
def pollRound (describe : Nat → List String → List JobInfo)
    (submitO : Nat → String) (max_retries : Nat)
    (job_queue job_definition : String) (chunk_size zstd_level : Nat)
    (s : MonState) : MonState :=
  let job_ids := s.tracker.map Prod.fst
  (chunksOf 100 job_ids).foldl
    (pollBatch describe submitO max_retries job_queue job_definition
      chunk_size zstd_level)
    s

/-- `monitor_jobs`, with explicit round fuel. -/
def monitor_jobs (describe : Nat → List String → List JobInfo)
    (submitO : Nat → String) (max_retries : Nat)
    (job_queue job_definition : String) (chunk_size zstd_level : Nat) :
    Nat → MonState → MonState
  | 0, s => s
  | fuel + 1, s =>
    if s.crashed then s
    else if s.tracker.isEmpty then s
    else
      monitor_jobs describe submitO max_retries job_queue job_definition
        chunk_size zstd_level fuel
        (pollRound describe submitO max_retries job_queue job_definition
          chunk_size zstd_level s)

/-- A fresh monitoring state over a tracker (no output yet, nothing queried
or resubmitted). -/
def initState (tracker : Tracker) : MonState :=
  { tracker := tracker, out := [], dLog := [], subs := [], sCalls := 0
    crashed := false }

/-- Everything `main` prints from the start of monitoring to process exit
(lines 181-189): the header, the monitor loop's lines, and — unless an
exception escaped — the fixed completion message. -/
def monitoringOutput (describe : Nat → List String → List JobInfo)
    (submitO : Nat → String) (max_retries : Nat)
    (job_queue job_definition : String) (chunk_size zstd_level : Nat)
    (fuel : Nat) (tracker : Tracker) : List String :=
  let final := monitor_jobs describe submitO max_retries job_queue
    job_definition chunk_size zstd_level fuel (initState tracker)
  ["\nMonitoring " ++ toString tracker.length ++ " job(s)...\n"] ++
    final.out ++ (if final.crashed then [] else ["\nAll jobs completed!"])

/-! ### A canonical single-unit retry scenario

To settle the end-to-end retry consequences, the supervisor is run against
a deterministic batch runner for one logical unit: the first `f` status
queries report `FAILED` (reason `"X"`), later ones `SUCCEEDED`, and the
k-th submission call mints the fresh handle `handleStr (k + 1)`. -/

/-- Handle minted for the n-th submission of the scenario unit. -/
def handleStr (n : Nat) : String := ⟨List.replicate n 'h'⟩

/-- Scenario batch runner: the n-th `describe_jobs` call echoes the queried
handles with `FAILED` (reason `"X"`) when `n < f`, else `SUCCEEDED`. -/
def scenDescribe (f : Nat) (n : Nat) (batch : List String) : List JobInfo :=
  batch.map fun h => ⟨h, if n < f then "FAILED" else "SUCCEEDED", some "X"⟩

/-- Scenario submission oracle: every resubmission gets a fresh handle. -/
def scenSubmit (k : Nat) : String := handleStr (k + 1)

/-- The line printed when the scenario unit's attempt `k` (0-based) fails
within budget. -/
def scenRetryLine (sample : Sample) (mr k : Nat) : String :=
  "↻ Retrying " ++ sample.id ++ " (attempt " ++ toString (k + 2) ++ "/" ++
    toString (mr + 1) ++ ") - Reason: " ++ "X"

/-- The submission request of the scenario unit. -/
def scenCall (sample : Sample) (jq jd : String) (cs zl : Nat) : SubmitCall :=
  ⟨"sizer-" ++ sample.id, jq, jd, sizerCommand sample cs zl⟩

/-- The supervisor state at the start of round `i` of the scenario: the unit
is on attempt `i` (it has failed `i` times), tracked under its `i`-th
handle, with `i` retry lines printed and `i` resubmission calls made. -/
def scenState (sample : Sample) (jq jd : String) (cs zl mr : Nat) (i : Nat) :
    MonState :=
  { tracker := [(handleStr i, ⟨sample, i⟩)]
    out := (List.range i).map (scenRetryLine sample mr)
    dLog := (List.range i).map fun k => [handleStr k]
    subs := List.replicate i (scenCall sample jq jd cs zl)
    sCalls := i
    crashed := false }

/-- The shapes of the lines `monitor_jobs` prints: one line per per-unit
event (success, retry, permanent failure) — there is no aggregate form. -/
def PerUnitLine (line : String) : Prop :=
  (∃ sid, line = "✓ " ++ sid ++ " succeeded") ∨
  (∃ sid a b r, line = "↻ Retrying " ++ sid ++ " (attempt " ++ a ++ "/" ++
    b ++ ") - Reason: " ++ r) ∨
  (∃ sid n r, line = "✗ " ++ sid ++ " failed permanently after " ++ n ++
    " attempts - Reason: " ++ r)

/-- The logical units tracked by a table, one per entry. -/
def trackedIds (t : Tracker) : List String := t.map fun e => e.2.sample.id

/-- The supervision invariant carried across classification steps: handles
and tracked unit ids are duplicate-free, every handle is either original or
a fresh handle from an already-made submission call, every tracked unit was
tracked at the start, and the table never grows past its starting size. -/
def TrackInv (K₀ I₀ : List String) (n₀ : Nat) (submitO : Nat → String)
    (s : MonState) : Prop :=
  (s.tracker.map Prod.fst).Nodup ∧ (trackedIds s.tracker).Nodup ∧
  (∀ h ∈ s.tracker.map Prod.fst,
    h ∈ K₀ ∨ ∃ j, j < s.sCalls ∧ h = submitO j) ∧
  (∀ i ∈ trackedIds s.tracker, i ∈ I₀) ∧
  s.tracker.length ≤ n₀

/-- Evidence that a status-query response of the round terminally
classified unit `id`: some returned result names a handle whose entry in
the round-start table `t₀` belongs to that unit, with status `SUCCEEDED`,
or `FAILED` with the retry budget already exhausted.  Only such results
ever make `monitor_jobs` drop a logical unit. -/
def TerminalCert (describe : Nat → List String → List JobInfo) (mr : Nat)
    (t₀ : Tracker) (id : String) : Prop :=
  ∃ n batch info pj, info ∈ describe n batch ∧
    lookupKey t₀ info.jobId = some pj ∧ pj.sample.id = id ∧
    (info.status = "SUCCEEDED" ∨
      (info.status = "FAILED" ∧ mr ≤ pj.retry_count))

/-- Mid-round invariant relative to the round-start table `t₀`: the
supervision invariant holds, every round-start handle still looks up its
round-start entry or nothing, and every round-start unit is either still
tracked (never zero — retries replace its entry rather than drop it) or
was terminally classified by some response. -/
def RoundInv (describe : Nat → List String → List JobInfo) (mr : Nat)
    (submitO : Nat → String) (t₀ : Tracker) (s : MonState) : Prop :=
  TrackInv (t₀.map Prod.fst) (trackedIds t₀) t₀.length submitO s ∧
  (∀ h ∈ t₀.map Prod.fst,
    lookupKey s.tracker h = lookupKey t₀ h ∨ lookupKey s.tracker h = none) ∧
  (∀ id ∈ trackedIds t₀,
    id ∈ trackedIds s.tracker ∨ TerminalCert describe mr t₀ id)

/-! ## Dictionary lemmas for the tracked-job table -/

theorem lookupKey_eq_none {t : Tracker} {h : String} :
    lookupKey t h = none ↔ h ∉ t.map Prod.fst := by
  induction t with
  | nil => simp [lookupKey]
  | cons e rest ih =>
    obtain ⟨k, v⟩ := e
    by_cases hk : k = h
    · subst hk
      simp [lookupKey]
    · simp [lookupKey, hk, ih, Ne.symm hk]

theorem mem_of_lookupKey_eq_some {t : Tracker} {h : String} {pj : PendingJob}
    (he : lookupKey t h = some pj) : h ∈ t.map Prod.fst := by
  by_contra hm
  rw [← lookupKey_eq_none] at hm
  rw [he] at hm
  exact Option.noConfusion hm

theorem lookupKey_decomp {t : Tracker} {h : String} {pj : PendingJob}
    (he : lookupKey t h = some pj) :
    ∃ t₁ t₂, t = t₁ ++ (h, pj) :: t₂ ∧ h ∉ t₁.map Prod.fst ∧
      eraseKey t h = t₁ ++ t₂ := by
  induction t with
  | nil => simp [lookupKey] at he
  | cons e rest ih =>
    obtain ⟨k, v⟩ := e
    by_cases hk : k = h
    · subst hk
      simp [lookupKey] at he
      subst he
      exact ⟨[], rest, by simp [eraseKey]⟩
    · simp [lookupKey, hk] at he
      obtain ⟨t₁, t₂, ht, hm, her⟩ := ih he
      exact ⟨(k, v) :: t₁, t₂, by simp [ht], by simp [hm, Ne.symm hk], by
        simp [eraseKey, hk, her]⟩

theorem eraseKey_sublist (t : Tracker) (h : String) :
    List.Sublist (eraseKey t h) t := by
  induction t with
  | nil => simp [eraseKey]
  | cons e rest ih =>
    obtain ⟨k, v⟩ := e
    by_cases hk : k = h
    · subst hk
      have he : eraseKey ((k, v) :: rest) k = rest := by simp [eraseKey]
      rw [he]
      exact List.sublist_cons_self (k, v) rest
    · simpa [eraseKey, hk] using ih.cons₂ (k, v)

theorem lookupKey_eraseKey_ne {t : Tracker} {h h' : String} (hne : h' ≠ h) :
    lookupKey (eraseKey t h) h' = lookupKey t h' := by
  induction t with
  | nil => simp [eraseKey]
  | cons e rest ih =>
    obtain ⟨k, v⟩ := e
    by_cases hk : k = h
    · subst hk
      simp [eraseKey, lookupKey, Ne.symm hne]
    · by_cases hk' : k = h'
      · subst hk'
        simp [eraseKey, lookupKey, hk, hne]
      · simp [eraseKey, lookupKey, hk, hk', ih]

theorem insertKey_of_not_mem {t : Tracker} {h : String} (pj : PendingJob)
    (hm : h ∉ t.map Prod.fst) : insertKey t h pj = t ++ [(h, pj)] := by
  induction t with
  | nil => simp [insertKey]
  | cons e rest ih =>
    obtain ⟨k, v⟩ := e
    simp only [List.map_cons, List.mem_cons, not_or] at hm
    simp [insertKey, Ne.symm hm.1, ih hm.2]

theorem lookupKey_insertKey_self {t : Tracker} {h : String} {pj : PendingJob} :
    lookupKey (insertKey t h pj) h = some pj := by
  induction t with
  | nil => simp [insertKey, lookupKey]
  | cons e rest ih =>
    obtain ⟨k, v⟩ := e
    by_cases hk : k = h <;> simp [insertKey, lookupKey, hk, ih]

theorem lookupKey_insertKey_ne {t : Tracker} {h h' : String} {pj : PendingJob}
    (hne : h' ≠ h) : lookupKey (insertKey t h pj) h' = lookupKey t h' := by
  induction t with
  | nil => simp [insertKey, lookupKey, Ne.symm hne]
  | cons e rest ih =>
    obtain ⟨k, v⟩ := e
    by_cases hk : k = h
    · subst hk
      simp [insertKey, lookupKey, Ne.symm hne]
    · by_cases hk' : k = h'
      · subst hk'
        simp [insertKey, lookupKey, hk, hne]
      · simp [insertKey, lookupKey, hk, hk', ih]

theorem lookupKey_append {t u : Tracker} {h : String} :
    lookupKey (t ++ u) h = (lookupKey t h).or (lookupKey u h) := by
  induction t with
  | nil => simp [lookupKey]
  | cons e rest ih =>
    obtain ⟨k, v⟩ := e
    by_cases hk : k = h <;> simp [lookupKey, hk, ih]

theorem eraseKey_append_left {t : Tracker} (u : Tracker) {h : String}
    (hm : h ∈ t.map Prod.fst) : eraseKey (t ++ u) h = eraseKey t h ++ u := by
  induction t with
  | nil => simp at hm
  | cons e rest ih =>
    obtain ⟨k, v⟩ := e
    by_cases hk : k = h
    · simp [eraseKey, hk]
    · simp only [List.map_cons, List.mem_cons] at hm
      rcases hm with hm | hm
      · exact absurd hm (Ne.symm hk)
      · simp [eraseKey, hk, ih hm]

theorem lookupKey_eraseKey_self {t : Tracker} {h : String}
    (hnd : (t.map Prod.fst).Nodup) : lookupKey (eraseKey t h) h = none := by
  cases he : lookupKey t h with
  | none =>
    rw [lookupKey_eq_none] at he ⊢
    intro hm
    exact he (((eraseKey_sublist t h).map Prod.fst).mem hm)
  | some pj =>
    obtain ⟨t₁, t₂, ht, hm1, her⟩ := lookupKey_decomp he
    subst ht
    rw [her, lookupKey_eq_none]
    simp only [List.map_append, List.nodup_append, List.map_cons,
      List.nodup_cons] at hnd
    intro hm
    rw [List.map_append, List.mem_append] at hm
    rcases hm with hm | hm
    · exact hm1 hm
    · exact hnd.2.1.1 hm

/-! ## String-suffix lemmas for the pairing algorithm -/

theorem pyEndsWith_append (a t : String) : pyEndsWith (a ++ t) t = true := by
  simp [pyEndsWith, String.data_append, List.suffix_append]

theorem pyDropRight_append (a t : String) :
    pyDropRight (a ++ t) t.data.length = a := by
  apply String.ext
  show (a ++ t).data.take ((a ++ t).data.length - t.data.length) = a.data
  rw [String.data_append]
  have hl : (a.data ++ t.data).length - t.data.length = a.data.length := by simp
  rw [hl]
  exact List.take_left a.data t.data

theorem eq_append_of_pyEndsWith {f t : String} (h : pyEndsWith f t = true) :
    f = pyDropRight f t.data.length ++ t := by
  have hs : t.data <:+ f.data := by simpa [pyEndsWith] using h
  obtain ⟨p, hp⟩ := hs
  apply String.ext
  rw [String.data_append]
  show f.data = f.data.take (f.data.length - t.data.length) ++ t.data
  rw [← hp]
  have hl : (p ++ t.data).length - t.data.length = p.length := by simp
  rw [hl, List.take_left p t.data]

theorem append_cancel_suffix {a b t : String} (h : a ++ t = b ++ t) : a = b := by
  have hd : a.data ++ t.data = b.data ++ t.data := by
    have := congrArg String.data h
    simpa [String.data_append] using this
  exact String.ext (List.append_cancel_right hd)

theorem suffix_eq_of_length {l a b : List Char} (ha : a <:+ l) (hb : b <:+ l)
    (hl : a.length = b.length) : a = b := by
  obtain ⟨p, hp⟩ := ha
  obtain ⟨q, hq⟩ := hb
  refine (List.append_inj (hp.trans hq.symm) ?_).2
  have l1 := congrArg List.length hp
  have l2 := congrArg List.length hq
  simp only [List.length_append] at l1 l2
  omega

/-- A filename cannot end with both role markers. -/
theorem not_pyEndsWith_one_of_two {f : String}
    (h2 : pyEndsWith f "_2.fastq.gz" = true) :
    pyEndsWith f "_1.fastq.gz" = false := by
  by_contra h1
  rw [Bool.not_eq_false] at h1
  have s1 : ("_1.fastq.gz" : String).data <:+ f.data := by
    simpa [pyEndsWith] using h1
  have s2 : ("_2.fastq.gz" : String).data <:+ f.data := by
    simpa [pyEndsWith] using h2
  have : ("_1.fastq.gz" : String).data = ("_2.fastq.gz" : String).data :=
    suffix_eq_of_length s1 s2 (by decide)
  exact absurd this (by decide)

/-! ## `buildIds` characterization -/

theorem lookupId_updateId (m : List (String × Reads)) (idv id' : String)
    (upd : Reads → Reads) :
    lookupId (updateId m idv upd) id' =
      if idv = id' then some (upd ((lookupId m id').getD {}))
      else lookupId m id' := by
  induction m with
  | nil =>
    by_cases hi : idv = id' <;> simp [updateId, lookupId, hi]
  | cons e rest ih =>
    obtain ⟨k, v⟩ := e
    by_cases hk : k = idv
    · subst hk
      by_cases hi : k = id'
      · subst hi
        simp [updateId, lookupId]
      · simp [updateId, lookupId, hi, fun h => hi h]
    · by_cases hi : k = id'
      · subst hi
        have : ¬ idv = k := fun h => hk h.symm
        simp [updateId, lookupId, hk, this]
      · simp [updateId, lookupId, hk, hi, ih]

theorem keys_updateId (m : List (String × Reads)) (idv : String)
    (upd : Reads → Reads) :
    (updateId m idv upd).map Prod.fst =
      if idv ∈ m.map Prod.fst then m.map Prod.fst
      else m.map Prod.fst ++ [idv] := by
  induction m with
  | nil => simp [updateId]
  | cons e rest ih =>
    obtain ⟨k, v⟩ := e
    by_cases hk : k = idv
    · subst hk
      simp [updateId]
    · by_cases hm : idv ∈ rest.map Prod.fst <;>
        simp [updateId, hk, Ne.symm hk, hm, ih]

theorem nodup_keys_updateId {m : List (String × Reads)} {idv : String}
    {upd : Reads → Reads} (hnd : (m.map Prod.fst).Nodup) :
    ((updateId m idv upd).map Prod.fst).Nodup := by
  rw [keys_updateId]
  by_cases hm : idv ∈ m.map Prod.fst
  · simpa [hm] using hnd
  · simpa [hm] using List.Nodup.append hnd (by simp) (by simpa using hm)

theorem nodup_keys_buildIds (raw_dir : String) (fs : List String) :
    ((buildIds raw_dir fs).map Prod.fst).Nodup := by
  suffices h : ∀ acc : List (String × Reads), (acc.map Prod.fst).Nodup →
      ((fs.foldl (addRawFile raw_dir) acc).map Prod.fst).Nodup by
    exact h [] (by simp)
  induction fs with
  | nil => intro acc hacc; simpa using hacc
  | cons f fs ih =>
    intro acc hacc
    refine ih (addRawFile raw_dir acc f) ?_
    unfold addRawFile
    by_cases h1 : pyEndsWith f "_1.fastq.gz" <;>
      by_cases h2 : pyEndsWith f "_2.fastq.gz" <;>
        simp [h1, h2, nodup_keys_updateId hacc, hacc]

theorem s1_data_length : ("_1.fastq.gz" : String).data.length = 11 := by decide

theorem s2_data_length : ("_2.fastq.gz" : String).data.length = 11 := by decide

theorem getR1_addRawFile (raw_dir : String) (acc : List (String × Reads))
    (f idv : String) :
    getR1 (addRawFile raw_dir acc f) idv =
      if idv ++ "_1.fastq.gz" = f then some (raw_dir ++ f) else getR1 acc idv := by
  by_cases h1 : pyEndsWith f "_1.fastq.gz" = true
  · have hdec : f = pyDropRight f 11 ++ "_1.fastq.gz" := by
      have h := eq_append_of_pyEndsWith h1
      rwa [s1_data_length] at h
    by_cases hf : idv ++ "_1.fastq.gz" = f
    · have hid : pyDropRight f 11 = idv :=
        (append_cancel_suffix (hf.trans hdec)).symm
      rw [if_pos hf]
      simp only [addRawFile, h1, if_true]
      rw [hid]
      simp [getR1, lookupId_updateId]
    · have hid : pyDropRight f 11 ≠ idv := by
        intro e
        rw [← e] at hf
        exact hf hdec.symm
      rw [if_neg hf]
      simp only [addRawFile, h1, if_true]
      simp [getR1, lookupId_updateId, hid]
  · have hne : ¬ idv ++ "_1.fastq.gz" = f := by
      intro e
      rw [← e] at h1
      exact h1 (pyEndsWith_append idv _)
    rw [if_neg hne]
    by_cases h2 : pyEndsWith f "_2.fastq.gz" = true
    · simp only [addRawFile, h1, if_false, h2, if_true, Bool.not_eq_true]
      by_cases hfid : pyDropRight f 11 = idv <;>
        simp [getR1, lookupId_updateId, hfid]
    · simp [addRawFile, h1, h2]

theorem getR2_addRawFile (raw_dir : String) (acc : List (String × Reads))
    (f idv : String) :
    getR2 (addRawFile raw_dir acc f) idv =
      if idv ++ "_2.fastq.gz" = f then some (raw_dir ++ f) else getR2 acc idv := by
  by_cases h1 : pyEndsWith f "_1.fastq.gz" = true
  · have hne : ¬ idv ++ "_2.fastq.gz" = f := by
      intro e
      rw [← e] at h1
      have h2' : pyEndsWith (idv ++ "_2.fastq.gz") "_2.fastq.gz" = true :=
        pyEndsWith_append idv _
      rw [not_pyEndsWith_one_of_two h2'] at h1
      exact Bool.noConfusion h1
    rw [if_neg hne]
    simp only [addRawFile, h1, if_true]
    by_cases hfid : pyDropRight f 11 = idv <;>
      simp [getR2, lookupId_updateId, hfid]
  · by_cases h2 : pyEndsWith f "_2.fastq.gz" = true
    · have hdec : f = pyDropRight f 11 ++ "_2.fastq.gz" := by
        have h := eq_append_of_pyEndsWith h2
        rwa [s2_data_length] at h
      by_cases hf : idv ++ "_2.fastq.gz" = f
      · have hid : pyDropRight f 11 = idv :=
          (append_cancel_suffix (hf.trans hdec)).symm
        rw [if_pos hf]
        simp only [addRawFile, h1, if_false, h2, if_true, Bool.not_eq_true]
        rw [hid]
        simp [getR2, lookupId_updateId]
      · have hid : pyDropRight f 11 ≠ idv := by
          intro e
          rw [← e] at hf
          exact hf hdec.symm
        rw [if_neg hf]
        simp only [addRawFile, h1, if_false, h2, if_true, Bool.not_eq_true]
        simp [getR2, lookupId_updateId, hid]
    · have hne : ¬ idv ++ "_2.fastq.gz" = f := by
        intro e
        rw [← e] at h2
        exact h2 (pyEndsWith_append idv _)
      rw [if_neg hne]
      simp [addRawFile, h1, h2]

theorem getR1_buildIds (raw_dir : String) (fs : List String) (idv : String) :
    getR1 (buildIds raw_dir fs) idv =
      if idv ++ "_1.fastq.gz" ∈ fs then some (raw_dir ++ (idv ++ "_1.fastq.gz"))
      else none := by
  suffices h : ∀ acc, getR1 (fs.foldl (addRawFile raw_dir) acc) idv =
      if idv ++ "_1.fastq.gz" ∈ fs then some (raw_dir ++ (idv ++ "_1.fastq.gz"))
      else getR1 acc idv by
    rw [buildIds, h []]
    by_cases hin : idv ++ "_1.fastq.gz" ∈ fs <;> simp [hin, getR1, lookupId]
  induction fs with
  | nil => intro acc; simp
  | cons f fs ih =>
    intro acc
    rw [List.foldl_cons, ih]
    by_cases hin : idv ++ "_1.fastq.gz" ∈ fs
    · simp [hin]
    · rw [getR1_addRawFile]
      by_cases hf : idv ++ "_1.fastq.gz" = f <;> simp [hin, hf]

theorem getR2_buildIds (raw_dir : String) (fs : List String) (idv : String) :
    getR2 (buildIds raw_dir fs) idv =
      if idv ++ "_2.fastq.gz" ∈ fs then some (raw_dir ++ (idv ++ "_2.fastq.gz"))
      else none := by
  suffices h : ∀ acc, getR2 (fs.foldl (addRawFile raw_dir) acc) idv =
      if idv ++ "_2.fastq.gz" ∈ fs then some (raw_dir ++ (idv ++ "_2.fastq.gz"))
      else getR2 acc idv by
    rw [buildIds, h []]
    by_cases hin : idv ++ "_2.fastq.gz" ∈ fs <;> simp [hin, getR2, lookupId]
  induction fs with
  | nil => intro acc; simp
  | cons f fs ih =>
    intro acc
    rw [List.foldl_cons, ih]
    by_cases hin : idv ++ "_2.fastq.gz" ∈ fs
    · simp [hin]
    · rw [getR2_addRawFile]
      by_cases hf : idv ++ "_2.fastq.gz" = f <;> simp [hin, hf]

/-! ## `resolveSamples` membership -/

theorem emitSample_eq_some {sk : List String} {od : Option String}
    {e : String × Reads} {s : Sample} (h : emitSample sk od e = some s) :
    sk.contains e.1 = false ∧ ∃ r1 r2, e.2.R1 = some r1 ∧ e.2.R2 = some r2 ∧
      s = ⟨e.1, r1, r2, sampleOutdir od r1⟩ := by
  unfold emitSample at h
  by_cases hc : sk.contains e.1
  · rw [if_pos hc] at h
    exact Option.noConfusion h
  · rw [if_neg hc] at h
    refine ⟨by simpa using hc, ?_⟩
    cases h1 : e.2.R1 with
    | none => rw [h1] at h; exact Option.noConfusion h
    | some r1 =>
      cases h2 : e.2.R2 with
      | none => rw [h1, h2] at h; exact Option.noConfusion h
      | some r2 =>
        rw [h1, h2] at h
        exact ⟨r1, r2, rfl, rfl, (Option.some_injective _ h).symm⟩

theorem lookupId_of_mem_nodup {m : List (String × Reads)} {idv : String}
    {r : Reads} (hnd : (m.map Prod.fst).Nodup) (hm : (idv, r) ∈ m) :
    lookupId m idv = some r := by
  induction m with
  | nil => simp at hm
  | cons e rest ih =>
    obtain ⟨k, v⟩ := e
    simp only [List.map_cons, List.nodup_cons] at hnd
    rcases List.mem_cons.mp hm with he | hm'
    · obtain ⟨h1, h2⟩ := Prod.mk.injEq _ _ _ _ ▸ he
      subst h1 h2
      simp [lookupId]
    · have hk : ¬ k = idv := by
        intro e
        subst e
        exact hnd.1 (List.mem_map.mpr ⟨(k, r), hm', rfl⟩)
      simp [lookupId, hk, ih hnd.2 hm']

theorem mem_of_lookupId {m : List (String × Reads)} {idv : String} {r : Reads}
    (h : lookupId m idv = some r) : (idv, r) ∈ m := by
  induction m with
  | nil => simp [lookupId] at h
  | cons e rest ih =>
    obtain ⟨k, v⟩ := e
    by_cases hk : k = idv
    · subst hk
      simp only [lookupId, if_pos] at h
      simp [← Option.some_injective _ h]
    · simp only [lookupId, hk, if_false] at h
      exact List.mem_cons_of_mem _ (ih h)

theorem map_id_filterMap_sublist (m : List (String × Reads))
    (sk : List String) (od : Option String) :
    List.Sublist ((m.filterMap (emitSample sk od)).map Sample.id)
      (m.map Prod.fst) := by
  induction m with
  | nil => simp
  | cons e rest ih =>
    cases he : emitSample sk od e with
    | none =>
      rw [List.filterMap_cons_none he]
      exact ih.trans (List.sublist_cons_self _ _)
    | some s =>
      rw [List.filterMap_cons_some he]
      have hid : s.id = e.1 := by
        obtain ⟨-, r1, r2, -, -, hs⟩ := emitSample_eq_some he
        rw [hs]
      simpa [hid] using ih.cons₂ e.1

theorem mem_map_id_filterMap {m : List (String × Reads)} {sk : List String}
    {od : Option String} {idv : String} (hnd : (m.map Prod.fst).Nodup) :
    idv ∈ (m.filterMap (emitSample sk od)).map Sample.id ↔
      sk.contains idv = false ∧ (getR1 m idv).isSome ∧ (getR2 m idv).isSome := by
  constructor
  · rintro hm
    obtain ⟨s, hs, hid⟩ := List.mem_map.mp hm
    obtain ⟨e, he, hemit⟩ := List.mem_filterMap.mp hs
    obtain ⟨hc, r1, r2, h1, h2, hspl⟩ := emitSample_eq_some hemit
    have hide : e.1 = idv := by rw [← hid, hspl]
    have hl : lookupId m idv = some e.2 :=
      lookupId_of_mem_nodup hnd (by rw [← hide]; exact he)
    refine ⟨by rwa [hide] at hc, ?_, ?_⟩ <;>
      simp [getR1, getR2, hl, h1, h2]
  · rintro ⟨hc, h1, h2⟩
    cases hl : lookupId m idv with
    | none => simp [getR1, hl] at h1
    | some r =>
      rw [getR1, hl] at h1
      rw [getR2, hl] at h2
      simp only [Option.getD_some] at h1 h2
      obtain ⟨r1, hr1⟩ := Option.isSome_iff_exists.mp h1
      obtain ⟨r2, hr2⟩ := Option.isSome_iff_exists.mp h2
      have hemit : emitSample sk od (idv, r) =
          some ⟨idv, r1, r2, sampleOutdir od r1⟩ := by
        unfold emitSample
        simp only [hc]
        simp [hr1, hr2]
      exact List.mem_map.mpr ⟨_, List.mem_filterMap.mpr
        ⟨(idv, r), mem_of_lookupId hl, hemit⟩, rfl⟩

theorem contains_eq_false_iff (l : List String) (a : String) :
    l.contains a = false ↔ a ∉ l := by
  rw [← Bool.not_eq_true]
  simp

theorem mem_skipIds {siz_files : List String} {ig : Bool} {idv : String} :
    idv ∈ skipIds siz_files ig ↔
      ig = false ∧ ∃ f ∈ siz_files, chunkId f = some idv := by
  cases ig <;> simp [skipIds, List.mem_filterMap]

/-- The characterization of which ids reach the output work list. -/
theorem mem_resolveSamples_iff (raw_dir : String)
    (raw_files siz_files : List String) (outdir : Option String) (ig : Bool)
    (idv : String) :
    idv ∈ (resolveSamples raw_dir raw_files siz_files outdir ig).map Sample.id ↔
      (idv ++ "_1.fastq.gz") ∈ raw_files ∧ (idv ++ "_2.fastq.gz") ∈ raw_files ∧
        idv ∉ skipIds siz_files ig := by
  rw [resolveSamples, mem_map_id_filterMap (nodup_keys_buildIds _ _)]
  rw [getR1_buildIds, getR2_buildIds]
  constructor
  · rintro ⟨hc, h1, h2⟩
    by_cases hm1 : idv ++ "_1.fastq.gz" ∈ raw_files
    · by_cases hm2 : idv ++ "_2.fastq.gz" ∈ raw_files
      · exact ⟨hm1, hm2, (contains_eq_false_iff _ _).mp hc⟩
      · rw [if_neg hm2] at h2
        exact Bool.noConfusion h2
    · rw [if_neg hm1] at h1
      exact Bool.noConfusion h1
  · rintro ⟨hm1, hm2, hsk⟩
    exact ⟨(contains_eq_false_iff _ _).mpr hsk, by simp [hm1], by simp [hm2]⟩

/-- Filenames matching neither role suffix do not change the `ids` dict. -/
theorem buildIds_filter (raw_dir : String) (raw_files : List String) :
    buildIds raw_dir (raw_files.filter fun f =>
      pyEndsWith f "_1.fastq.gz" || pyEndsWith f "_2.fastq.gz") =
    buildIds raw_dir raw_files := by
  suffices h : ∀ acc, ((raw_files.filter fun f =>
      pyEndsWith f "_1.fastq.gz" || pyEndsWith f "_2.fastq.gz").foldl
        (addRawFile raw_dir) acc) = raw_files.foldl (addRawFile raw_dir) acc by
    exact h []
  induction raw_files with
  | nil => intro acc; rfl
  | cons f fs ih =>
    intro acc
    rw [List.filter_cons]
    by_cases hp : (pyEndsWith f "_1.fastq.gz" || pyEndsWith f "_2.fastq.gz") = true
    · simp only [hp, if_true, List.foldl_cons]
      exact ih _
    · rw [Bool.not_eq_true] at hp
      simp only [hp, Bool.false_eq_true, if_false, List.foldl_cons]
      rw [ih]
      rw [Bool.or_eq_false_iff] at hp
      have hstep : addRawFile raw_dir acc f = acc := by
        unfold addRawFile
        rw [hp.1, hp.2]
        rfl
      rw [hstep]

theorem outdir_of_mem_resolveSamples {raw_dir : String}
    {raw_files siz_files : List String} {od : Option String} {ig : Bool}
    {s : Sample} (h : s ∈ resolveSamples raw_dir raw_files siz_files od ig) :
    s.outdir = sampleOutdir od s.fastq_1 := by
  obtain ⟨e, he, hemit⟩ := List.mem_filterMap.mp h
  obtain ⟨-, r1, r2, -, -, hs⟩ := emitSample_eq_some hemit
  rw [hs]

/-! ## Claim theorems for the Work-Unit Resolver -/

/-- C3: for every pair of raw and done listings, the resolver produces
exactly one work unit per id having both pair members in the raw listing and
not in the completed-id set (membership iff, plus no-duplicate ids), and
filenames matching neither role suffix never contribute to the output
(dropping them leaves the result unchanged). -/
theorem resolver_pairing (raw_dir : String) (raw_files siz_files : List String)
    (outdir : Option String) (ignore_existing : Bool) :
    ((resolveSamples raw_dir raw_files siz_files outdir ignore_existing).map
      Sample.id).Nodup
    ∧ (∀ idv : String,
        idv ∈ (resolveSamples raw_dir raw_files siz_files outdir
            ignore_existing).map Sample.id ↔
          (idv ++ "_1.fastq.gz") ∈ raw_files ∧
            (idv ++ "_2.fastq.gz") ∈ raw_files ∧
            idv ∉ skipIds siz_files ignore_existing)
    ∧ resolveSamples raw_dir (raw_files.filter fun f =>
        pyEndsWith f "_1.fastq.gz" || pyEndsWith f "_2.fastq.gz")
        siz_files outdir ignore_existing
      = resolveSamples raw_dir raw_files siz_files outdir ignore_existing := by
  refine ⟨?_, ?_, ?_⟩
  · exact ((map_id_filterMap_sublist _ _ _).nodup (nodup_keys_buildIds _ _))
  · intro idv
    exact mem_resolveSamples_iff raw_dir raw_files siz_files outdir
      ignore_existing idv
  · rw [resolveSamples, resolveSamples, buildIds_filter]

/-- C4: an id with both pair members present whose done listing contains a
filename made of the id followed by the completion marker `"_chunk"` is
dropped when `ignore_existing` is false and kept when it is true. -/
theorem resolver_completed_filter (raw_dir : String)
    (raw_files siz_files : List String) (outdir : Option String)
    (idv : String)
    (h1 : (idv ++ "_1.fastq.gz") ∈ raw_files)
    (h2 : (idv ++ "_2.fastq.gz") ∈ raw_files)
    (hdone : ∃ f ∈ siz_files, chunkId f = some idv) :
    idv ∉ (resolveSamples raw_dir raw_files siz_files outdir false).map
      Sample.id
    ∧ idv ∈ (resolveSamples raw_dir raw_files siz_files outdir true).map
      Sample.id := by
  constructor
  · intro hm
    have h := (mem_resolveSamples_iff raw_dir raw_files siz_files outdir
      false idv).mp hm
    exact h.2.2 (mem_skipIds.mpr ⟨rfl, hdone⟩)
  · refine (mem_resolveSamples_iff raw_dir raw_files siz_files outdir
      true idv).mpr ⟨h1, h2, ?_⟩
    intro hm
    exact Bool.noConfusion (mem_skipIds.mp hm).1

/-- C4 witness: the end-to-end example from the specification, raw listing
`[a_1.fastq.gz, a_2.fastq.gz]` and done listing `[a_chunk000001.fastq.zst]`. -/
theorem resolver_completed_filter_witness :
    "a" ∉ (resolveSamples "s3://b/d/raw/" ["a_1.fastq.gz", "a_2.fastq.gz"]
      ["a_chunk000001.fastq.zst"] none false).map Sample.id
    ∧ "a" ∈ (resolveSamples "s3://b/d/raw/" ["a_1.fastq.gz", "a_2.fastq.gz"]
      ["a_chunk000001.fastq.zst"] none true).map Sample.id :=
  resolver_completed_filter "s3://b/d/raw/" ["a_1.fastq.gz", "a_2.fastq.gz"]
    ["a_chunk000001.fastq.zst"] none "a" (by decide) (by decide) (by decide)

/-- C5 counterexample: with the empty string supplied as the explicit
output-directory override, the emitted unit's output directory is not the
override verbatim — Python's `if outdir:` treats `""` as absent, so the
directory is inferred from the first member's path instead. -/
theorem outdir_empty_override_cex :
    ∃ s ∈ resolveSamples "s3://b/d/raw/" ["a_1.fastq.gz", "a_2.fastq.gz"] []
      (some "") false, s.outdir ≠ "" := by
  decide

/-- C5 (amended): a non-empty explicit override is used verbatim for every
emitted unit; with no override, or with the empty-string override, the
output directory is `infer_output_dir` of the unit's first member path (a
pure string transform, so equal inputs give equal directories). -/
theorem resolver_outdir_derivation (raw_dir : String)
    (raw_files siz_files : List String) (ig : Bool) :
    (∀ o : String, o ≠ "" →
      ∀ s ∈ resolveSamples raw_dir raw_files siz_files (some o) ig,
        s.outdir = o)
    ∧ (∀ s ∈ resolveSamples raw_dir raw_files siz_files none ig,
        s.outdir = infer_output_dir s.fastq_1)
    ∧ (∀ s ∈ resolveSamples raw_dir raw_files siz_files (some "") ig,
        s.outdir = infer_output_dir s.fastq_1) := by
  refine ⟨?_, ?_, ?_⟩
  · intro o ho s hs
    rw [outdir_of_mem_resolveSamples hs]
    simp [sampleOutdir, ho]
  · intro s hs
    rw [outdir_of_mem_resolveSamples hs]
    rfl
  · intro s hs
    rw [outdir_of_mem_resolveSamples hs]
    rfl

/-- C5 witness: a concrete non-empty override is used verbatim. -/
theorem resolver_outdir_derivation_witness :
    (⟨"a", "s3://b/d/raw/a_1.fastq.gz", "s3://b/d/raw/a_2.fastq.gz",
      "s3://x/"⟩ : Sample).outdir = "s3://x/" :=
  (resolver_outdir_derivation "s3://b/d/raw/"
    ["a_1.fastq.gz", "a_2.fastq.gz"] [] false).1 "s3://x/" (by decide) _
    (by decide)

/-- C7: listing the raw prefix is mandatory — a lister error there aborts
resolution with an error; listing the done prefix is optional — a lister
error there is treated as an empty listing and resolution continues.  At the
`list_s3_files` level: an enumeration failure is an error exactly when
`allow_missing` is false, and an empty result when it is true. -/
theorem resolver_listing_errors (run_aws : String → Bool → Option String)
    (bucket delivery : String) (outdir : Option String)
    (ignore_existing no_sign_request : Bool) :
    (run_aws ("s3://" ++ bucket ++ "/" ++ delivery ++ "/raw/")
        no_sign_request = none →
      generate_samplesheet run_aws bucket delivery outdir ignore_existing
        no_sign_request =
        .error ("s3://" ++ bucket ++ "/" ++ delivery ++ "/raw/"))
    ∧ (∀ out, run_aws ("s3://" ++ bucket ++ "/" ++ delivery ++ "/raw/")
          no_sign_request = some out →
        run_aws ("s3://" ++ bucket ++ "/" ++ delivery ++ "/siz/")
          no_sign_request = none →
        generate_samplesheet run_aws bucket delivery outdir ignore_existing
          no_sign_request =
          .ok (resolveSamples ("s3://" ++ bucket ++ "/" ++ delivery ++ "/raw/")
            (parseAwsLs out) [] outdir ignore_existing))
    ∧ (∀ path nsr, run_aws path nsr = none →
        list_s3_files run_aws path false nsr = .error path ∧
        list_s3_files run_aws path true nsr = .ok []) := by
  refine ⟨?_, ?_, ?_⟩
  · intro h
    simp only [generate_samplesheet, list_s3_files, h]
    rfl
  · intro out h1 h2
    simp only [generate_samplesheet, list_s3_files, h1, h2]
    rfl
  · intro path nsr h
    constructor <;> simp [list_s3_files, h]

/-- C7 witness: with a lister that always fails, resolution aborts with the
raw-prefix error; with one that fails only on the siz prefix, resolution
continues as if there were zero existing outputs. -/
theorem resolver_listing_errors_witness :
    generate_samplesheet (fun _ _ => none) "b" "d" none false false =
      .error "s3://b/d/raw/"
    ∧ generate_samplesheet
        (fun p _ => if p = "s3://b/d/raw/" then some "" else none)
        "b" "d" none false false =
      .ok (resolveSamples "s3://b/d/raw/" (parseAwsLs "") [] none false) :=
  ⟨(resolver_listing_errors (fun _ _ => none) "b" "d" none false false).1 rfl,
   (resolver_listing_errors
      (fun p _ => if p = "s3://b/d/raw/" then some "" else none)
      "b" "d" none false false).2.1 "" (by decide) (by decide)⟩

/-! ## Step equations for `processInfo` -/

theorem processInfo_eq_crashed {submitO : Nat → String} {mr : Nat}
    {jq jd : String} {cs zl : Nat} {s : MonState} {info : JobInfo}
    (hc : s.crashed = true) :
    processInfo submitO mr jq jd cs zl s info = s := by
  simp [processInfo, hc]

theorem processInfo_eq_keyerror {submitO : Nat → String} {mr : Nat}
    {jq jd : String} {cs zl : Nat} {s : MonState} {info : JobInfo}
    (hc : s.crashed = false)
    (hl : lookupKey s.tracker info.jobId = none) :
    processInfo submitO mr jq jd cs zl s info = { s with crashed := true } := by
  simp [processInfo, hc, hl]

theorem processInfo_eq_succeeded {submitO : Nat → String} {mr : Nat}
    {jq jd : String} {cs zl : Nat} {s : MonState} {info : JobInfo}
    (pj : PendingJob) (hc : s.crashed = false)
    (hl : lookupKey s.tracker info.jobId = some pj)
    (hs : info.status = "SUCCEEDED") :
    processInfo submitO mr jq jd cs zl s info =
      { s with out := s.out ++ ["✓ " ++ pj.sample.id ++ " succeeded"]
               tracker := eraseKey s.tracker info.jobId } := by
  simp [processInfo, hc, hl, hs]

theorem processInfo_eq_retry {submitO : Nat → String} {mr : Nat}
    {jq jd : String} {cs zl : Nat} {s : MonState} {info : JobInfo}
    (pj : PendingJob) (hc : s.crashed = false)
    (hl : lookupKey s.tracker info.jobId = some pj)
    (hs : info.status = "FAILED") (hr : pj.retry_count < mr) :
    processInfo submitO mr jq jd cs zl s info =
      { s with
        out := s.out ++ ["↻ Retrying " ++ pj.sample.id ++ " (attempt " ++
          toString (pj.retry_count + 2) ++ "/" ++ toString (mr + 1) ++
          ") - Reason: " ++ info.statusReason.getD "Unknown"]
        subs := s.subs ++ [⟨"sizer-" ++ pj.sample.id, jq, jd,
          sizerCommand pj.sample cs zl⟩]
        sCalls := s.sCalls + 1
        tracker := eraseKey (insertKey s.tracker (submitO s.sCalls)
          ⟨pj.sample, pj.retry_count + 1⟩) info.jobId } := by
  have hne : ("FAILED" : String) ≠ "SUCCEEDED" := by decide
  simp [processInfo, hc, hl, hs, hne, hr, submit_batch_job]

theorem processInfo_eq_permfail {submitO : Nat → String} {mr : Nat}
    {jq jd : String} {cs zl : Nat} {s : MonState} {info : JobInfo}
    (pj : PendingJob) (hc : s.crashed = false)
    (hl : lookupKey s.tracker info.jobId = some pj)
    (hs : info.status = "FAILED") (hr : ¬ pj.retry_count < mr) :
    processInfo submitO mr jq jd cs zl s info =
      { s with
        out := s.out ++ ["✗ " ++ pj.sample.id ++ " failed permanently after "
          ++ toString (mr + 1) ++ " attempts - Reason: " ++
          info.statusReason.getD "Unknown"]
        tracker := eraseKey s.tracker info.jobId } := by
  have hne : ("FAILED" : String) ≠ "SUCCEEDED" := by decide
  simp [processInfo, hc, hl, hs, hne, hr]

theorem processInfo_eq_other {submitO : Nat → String} {mr : Nat}
    {jq jd : String} {cs zl : Nat} {s : MonState} {info : JobInfo}
    (pj : PendingJob) (hc : s.crashed = false)
    (hl : lookupKey s.tracker info.jobId = some pj)
    (hs1 : info.status ≠ "SUCCEEDED") (hs2 : info.status ≠ "FAILED") :
    processInfo submitO mr jq jd cs zl s info = s := by
  simp [processInfo, hc, hl, hs1, hs2]

/-! ## Frame and fold lemmas for the polling loop -/

/-- One classification step never touches a tracked entry other than the one
keyed by the result's own handle (fresh resubmission handles aside). -/
theorem lookupKey_processInfo_ne {submitO : Nat → String} {mr : Nat}
    {jq jd : String} {cs zl : Nat} {s : MonState} {info : JobInfo} {h : String}
    (hne : h ≠ info.jobId) (hfresh : ∀ k, submitO k ≠ h) :
    lookupKey (processInfo submitO mr jq jd cs zl s info).tracker h =
      lookupKey s.tracker h := by
  by_cases hc : s.crashed = true
  · rw [processInfo_eq_crashed hc]
  · rw [Bool.not_eq_true] at hc
    cases hl : lookupKey s.tracker info.jobId with
    | none => rw [processInfo_eq_keyerror hc hl]
    | some pj =>
      by_cases hs1 : info.status = "SUCCEEDED"
      · rw [processInfo_eq_succeeded pj hc hl hs1]
        exact lookupKey_eraseKey_ne hne
      · by_cases hs2 : info.status = "FAILED"
        · by_cases hr : pj.retry_count < mr
          · rw [processInfo_eq_retry pj hc hl hs2 hr]
            show lookupKey (eraseKey (insertKey s.tracker (submitO s.sCalls)
              ⟨pj.sample, pj.retry_count + 1⟩) info.jobId) h =
              lookupKey s.tracker h
            rw [lookupKey_eraseKey_ne hne,
              lookupKey_insertKey_ne (Ne.symm (hfresh s.sCalls))]
          · rw [processInfo_eq_permfail pj hc hl hs2 hr]
            exact lookupKey_eraseKey_ne hne
        · rw [processInfo_eq_other pj hc hl hs1 hs2]

/-- A tracked entry whose handle is either absent from the result or
reported with a non-terminal status is untouched by one step. -/
theorem lookupKey_processInfo_nonterminal {submitO : Nat → String} {mr : Nat}
    {jq jd : String} {cs zl : Nat} {s : MonState} {info : JobInfo} {h : String}
    (hfresh : ∀ k, submitO k ≠ h)
    (hstat : info.jobId = h →
      info.status ≠ "SUCCEEDED" ∧ info.status ≠ "FAILED") :
    lookupKey (processInfo submitO mr jq jd cs zl s info).tracker h =
      lookupKey s.tracker h := by
  by_cases hj : h = info.jobId
  · obtain ⟨hs1, hs2⟩ := hstat hj.symm
    by_cases hc : s.crashed = true
    · rw [processInfo_eq_crashed hc]
    · rw [Bool.not_eq_true] at hc
      cases hl : lookupKey s.tracker info.jobId with
      | none => rw [processInfo_eq_keyerror hc hl]
      | some pj => rw [processInfo_eq_other pj hc hl hs1 hs2]
  · exact lookupKey_processInfo_ne hj hfresh

theorem foldl_processInfo_nonterminal {submitO : Nat → String} {mr : Nat}
    {jq jd : String} {cs zl : Nat} {h : String} {resp : List JobInfo}
    {s : MonState} (hfresh : ∀ k, submitO k ≠ h)
    (hstat : ∀ info ∈ resp, info.jobId = h →
      info.status ≠ "SUCCEEDED" ∧ info.status ≠ "FAILED") :
    lookupKey ((resp.foldl (processInfo submitO mr jq jd cs zl) s).tracker) h
      = lookupKey s.tracker h := by
  induction resp generalizing s with
  | nil => rfl
  | cons i resp ih =>
    rw [List.foldl_cons,
      ih (fun info hm => hstat info (List.mem_cons_of_mem _ hm)),
      lookupKey_processInfo_nonterminal hfresh (hstat i (List.mem_cons_self i resp))]

theorem processInfo_dLog (submitO : Nat → String) (mr : Nat)
    (jq jd : String) (cs zl : Nat) (s : MonState) (info : JobInfo) :
    (processInfo submitO mr jq jd cs zl s info).dLog = s.dLog := by
  by_cases hc : s.crashed = true
  · rw [processInfo_eq_crashed hc]
  · rw [Bool.not_eq_true] at hc
    cases hl : lookupKey s.tracker info.jobId with
    | none => rw [processInfo_eq_keyerror hc hl]
    | some pj =>
      by_cases hs1 : info.status = "SUCCEEDED"
      · rw [processInfo_eq_succeeded pj hc hl hs1]
      · by_cases hs2 : info.status = "FAILED"
        · by_cases hr : pj.retry_count < mr
          · rw [processInfo_eq_retry pj hc hl hs2 hr]
          · rw [processInfo_eq_permfail pj hc hl hs2 hr]
        · rw [processInfo_eq_other pj hc hl hs1 hs2]

theorem foldl_processInfo_dLog (submitO : Nat → String) (mr : Nat)
    (jq jd : String) (cs zl : Nat) (resp : List JobInfo) (s : MonState) :
    ((resp.foldl (processInfo submitO mr jq jd cs zl) s).dLog) = s.dLog := by
  induction resp generalizing s with
  | nil => rfl
  | cons i resp ih => rw [List.foldl_cons, ih, processInfo_dLog]

theorem foldl_processInfo_crashed (submitO : Nat → String) (mr : Nat)
    (jq jd : String) (cs zl : Nat) (resp : List JobInfo) {s : MonState}
    (hc : s.crashed = true) :
    resp.foldl (processInfo submitO mr jq jd cs zl) s = s := by
  induction resp with
  | nil => rfl
  | cons i resp ih => rw [List.foldl_cons, processInfo_eq_crashed hc, ih]

theorem pollBatch_crashed {describe : Nat → List String → List JobInfo}
    {submitO : Nat → String} {mr : Nat} {jq jd : String} {cs zl : Nat}
    {s : MonState} (b : List String) (hc : s.crashed = true) :
    pollBatch describe submitO mr jq jd cs zl s b = s := by
  simp [pollBatch, hc]

theorem foldl_pollBatch_crashed {describe : Nat → List String → List JobInfo}
    {submitO : Nat → String} {mr : Nat} {jq jd : String} {cs zl : Nat}
    (bs : List (List String)) {s : MonState} (hc : s.crashed = true) :
    bs.foldl (pollBatch describe submitO mr jq jd cs zl) s = s := by
  induction bs with
  | nil => rfl
  | cons b bs ih => rw [List.foldl_cons, pollBatch_crashed b hc, ih]

/-- When no exception escapes, a round's `describe_jobs` calls are exactly
the processed batch list, appended to the query log in order. -/
theorem foldl_pollBatch_dLog {describe : Nat → List String → List JobInfo}
    {submitO : Nat → String} {mr : Nat} {jq jd : String} {cs zl : Nat}
    (bs : List (List String)) (s : MonState)
    (hres : (bs.foldl (pollBatch describe submitO mr jq jd cs zl) s).crashed
      = false) :
    (bs.foldl (pollBatch describe submitO mr jq jd cs zl) s).dLog =
      s.dLog ++ bs := by
  induction bs generalizing s with
  | nil => simp
  | cons b bs ih =>
    rw [List.foldl_cons] at hres ⊢
    by_cases hc : s.crashed = true
    · rw [pollBatch_crashed b hc, foldl_pollBatch_crashed bs hc] at hres
      rw [hc] at hres
      exact Bool.noConfusion hres
    · rw [Bool.not_eq_true] at hc
      have hb : pollBatch describe submitO mr jq jd cs zl s b =
          (describe s.dLog.length b).foldl
            (processInfo submitO mr jq jd cs zl)
            { s with dLog := s.dLog ++ [b] } := by
        simp [pollBatch, hc]
      rw [hb] at hres ⊢
      rw [ih _ hres, foldl_processInfo_dLog]
      simp

/-! ## `chunksOf` facts -/

theorem chunksOfAux_join {n : Nat} (hn : 1 ≤ n) :
    ∀ fuel l, l.length ≤ fuel → (chunksOfAux n fuel l).flatten = l := by
  intro fuel
  induction fuel with
  | zero =>
    intro l hl
    cases l with
    | nil => rfl
    | cons x xs => simp at hl
  | succ fuel ih =>
    intro l hl
    cases l with
    | nil => rfl
    | cons x xs =>
      obtain ⟨m, rfl⟩ : ∃ m, n = m + 1 :=
        ⟨n - 1, by omega⟩
      show ((x :: xs).take (m + 1) :: chunksOfAux (m + 1) fuel
        (xs.drop (m + 1 - 1))).flatten = x :: xs
      rw [List.flatten_cons]
      rw [ih (xs.drop (m + 1 - 1)) (by simp at hl ⊢; omega)]
      show x :: xs.take m ++ (x :: xs).tail.drop m = x :: xs
      simp [List.take_append_drop]

theorem chunksOfAux_le {n : Nat} : ∀ fuel l,
    ∀ q ∈ chunksOfAux n fuel l, l.length ≤ fuel → q.length ≤ n := by
  intro fuel
  induction fuel with
  | zero =>
    intro l q hq hl
    cases l with
    | nil => simp [chunksOfAux] at hq
    | cons x xs => simp at hl
  | succ fuel ih =>
    intro l q hq hl
    cases l with
    | nil => simp [chunksOfAux] at hq
    | cons x xs =>
      rw [show chunksOfAux n (fuel + 1) (x :: xs) =
        ((x :: xs).take n) :: chunksOfAux n fuel (xs.drop (n - 1)) from rfl]
        at hq
      rcases List.mem_cons.mp hq with hq | hq
      · subst hq
        exact (List.length_take _ _).le.trans (by simp)
      · exact ih (xs.drop (n - 1)) q hq (by simp at hl ⊢; omega)

theorem chunksOf_join (l : List String) : (chunksOf 100 l).flatten = l :=
  chunksOfAux_join (by omega) l.length l le_rfl

theorem chunksOf_le (l : List String) :
    ∀ q ∈ chunksOf 100 l, q.length ≤ 100 :=
  fun q hq => chunksOfAux_le l.length l q hq le_rfl

/-! ## Claim theorems for Submitter and Supervisor -/

/-- C9: in dry mode `submit_batch_job` makes no submission call and returns
the placeholder `"dry-run-" + id`, which depends only on the unit's id (the
same handle for any batch client, hence for repeated invocations); absent
dry mode it makes exactly one submission call and returns the handle the
batch runner assigned to that call. -/
theorem submitter_dry_run (submit : SubmitCall → String) (sample : Sample)
    (job_queue job_definition : String) (chunk_size zstd_level : Nat) :
    submit_batch_job submit sample job_queue job_definition chunk_size
        zstd_level true = ("dry-run-" ++ sample.id, [])
    ∧ (∀ submit' : SubmitCall → String,
        (submit_batch_job submit sample job_queue job_definition chunk_size
          zstd_level true).1 =
        (submit_batch_job submit' sample job_queue job_definition chunk_size
          zstd_level true).1)
    ∧ (submit_batch_job submit sample job_queue job_definition chunk_size
        zstd_level false).2 =
      [⟨"sizer-" ++ sample.id, job_queue, job_definition,
        sizerCommand sample chunk_size zstd_level⟩]
    ∧ (submit_batch_job submit sample job_queue job_definition chunk_size
        zstd_level false).1 =
      submit ⟨"sizer-" ++ sample.id, job_queue, job_definition,
        sizerCommand sample chunk_size zstd_level⟩ :=
  ⟨rfl, fun _ => rfl, rfl, rfl⟩

/-- C10: a tracked entry whose handle never appears in this round's query
responses with a terminal status (`SUCCEEDED`/`FAILED`) — in particular one
whose handle is absent from the responses, or one reported with any other
status — keeps exactly the same binding (same work unit, same attempt
count) and is still tracked for the next round.  The freshness hypothesis
says the batch runner never reassigns this handle to a resubmission. -/
theorem supervisor_nonterminal_frame
    (describe : Nat → List String → List JobInfo) (submitO : Nat → String)
    (max_retries : Nat) (job_queue job_definition : String)
    (chunk_size zstd_level : Nat) (s : MonState) (h : String)
    (pj : PendingJob) (hfresh : ∀ k, submitO k ≠ h)
    (hstat : ∀ n batch, ∀ info ∈ describe n batch, info.jobId = h →
      info.status ≠ "SUCCEEDED" ∧ info.status ≠ "FAILED")
    (htr : lookupKey s.tracker h = some pj) :
    lookupKey (pollRound describe submitO max_retries job_queue
      job_definition chunk_size zstd_level s).tracker h = some pj
    ∧ h ∈ (pollRound describe submitO max_retries job_queue job_definition
      chunk_size zstd_level s).tracker.map Prod.fst := by
  have hmain : lookupKey (pollRound describe submitO max_retries job_queue
      job_definition chunk_size zstd_level s).tracker h =
      lookupKey s.tracker h := by
    clear htr
    rw [pollRound]
    generalize chunksOf 100 (s.tracker.map Prod.fst) = batches
    induction batches generalizing s with
    | nil => rfl
    | cons b bs ih =>
      rw [List.foldl_cons, ih]
      by_cases hc : s.crashed = true
      · rw [pollBatch_crashed b hc]
      · rw [Bool.not_eq_true] at hc
        have hb : pollBatch describe submitO max_retries job_queue
            job_definition chunk_size zstd_level s b =
            (describe s.dLog.length b).foldl
              (processInfo submitO max_retries job_queue job_definition
                chunk_size zstd_level)
              { s with dLog := s.dLog ++ [b] } := by
          simp [pollBatch, hc]
        rw [hb, foldl_processInfo_nonterminal hfresh
          (hstat s.dLog.length b)]
  rw [hmain]
  exact ⟨htr, mem_of_lookupKey_eq_some (by rw [hmain]; exact htr)⟩

/-- C10 witness: one tracked job reported `RUNNING` survives a polling round
untouched. -/
theorem supervisor_nonterminal_frame_witness :
    lookupKey (pollRound (fun _ batch => batch.map fun x => ⟨x, "RUNNING",
      none⟩) (fun _ => "n") 3 "q" "jd" 5 5
      (initState [("j", ⟨⟨"a", "f1", "f2", "o"⟩, 0⟩)])).tracker "j" =
      some ⟨⟨"a", "f1", "f2", "o"⟩, 0⟩
    ∧ "j" ∈ (pollRound (fun _ batch => batch.map fun x => ⟨x, "RUNNING",
      none⟩) (fun _ => "n") 3 "q" "jd" 5 5
      (initState [("j", ⟨⟨"a", "f1", "f2", "o"⟩, 0⟩)])).tracker.map
      Prod.fst :=
  supervisor_nonterminal_frame _ _ 3 "q" "jd" 5 5 _ "j" _
    (fun _ => by decide)
    (by
      intro n batch info hm hj
      obtain ⟨x, hx, rfl⟩ := List.mem_map.mp hm
      exact ⟨show ("RUNNING" : String) ≠ "SUCCEEDED" by decide,
        show ("RUNNING" : String) ≠ "FAILED" by decide⟩)
    (by decide)

/-- C8: in every polling round the supervisor covers the full handle set
tracked at the start of the round with `describe_jobs` queries of at most
100 handles each, issuing as many queries as needed (their concatenation is
the round-start snapshot, recorded in order in the query log when no
exception escapes); and each returned result is matched to its tracked
entry by handle — a step for a result with handle `i` leaves every
differently keyed entry's lookup unchanged. -/
theorem supervisor_batched_polling
    (describe : Nat → List String → List JobInfo) (submitO : Nat → String)
    (max_retries : Nat) (job_queue job_definition : String)
    (chunk_size zstd_level : Nat) (s : MonState) :
    ((pollRound describe submitO max_retries job_queue job_definition
        chunk_size zstd_level s).crashed = false →
      (pollRound describe submitO max_retries job_queue job_definition
        chunk_size zstd_level s).dLog =
        s.dLog ++ chunksOf 100 (s.tracker.map Prod.fst))
    ∧ (chunksOf 100 (s.tracker.map Prod.fst)).flatten =
        s.tracker.map Prod.fst
    ∧ (∀ q ∈ chunksOf 100 (s.tracker.map Prod.fst), q.length ≤ 100)
    ∧ (∀ info : JobInfo, ∀ h : String, h ≠ info.jobId →
        (∀ k, submitO k ≠ h) →
        lookupKey (processInfo submitO max_retries job_queue job_definition
          chunk_size zstd_level s info).tracker h = lookupKey s.tracker h) := by
  refine ⟨?_, chunksOf_join _, chunksOf_le _, ?_⟩
  · intro hres
    rw [pollRound] at hres ⊢
    exact foldl_pollBatch_dLog _ s hres
  · intro info h hne hfresh
    exact lookupKey_processInfo_ne hne hfresh

/-- C8 witness: a concrete three-job round makes one full-coverage query of
three handles and leaves an entry keyed differently from a result's handle
unchanged. -/
theorem supervisor_batched_polling_witness :
    (pollRound (fun _ batch => batch.map fun x => ⟨x, "SUCCEEDED", none⟩)
      (fun _ => "n") 3 "q" "jd" 5 5
      (initState [("ja", ⟨⟨"a", "f1", "f2", "o"⟩, 0⟩),
        ("jb", ⟨⟨"b", "f1", "f2", "o"⟩, 0⟩)])).dLog = [["ja", "jb"]]
    ∧ lookupKey (processInfo (fun _ => "n") 3 "q" "jd" 5 5
        (initState [("ja", ⟨⟨"a", "f1", "f2", "o"⟩, 0⟩),
          ("jb", ⟨⟨"b", "f1", "f2", "o"⟩, 0⟩)])
        ⟨"ja", "SUCCEEDED", none⟩).tracker "jb" =
      lookupKey (initState [("ja", ⟨⟨"a", "f1", "f2", "o"⟩, 0⟩),
        ("jb", ⟨⟨"b", "f1", "f2", "o"⟩, 0⟩)]).tracker "jb" := by
  constructor
  · have h := (supervisor_batched_polling
      (fun _ batch => batch.map fun x => ⟨x, "SUCCEEDED", none⟩)
      (fun _ => "n") 3 "q" "jd" 5 5
      (initState [("ja", ⟨⟨"a", "f1", "f2", "o"⟩, 0⟩),
        ("jb", ⟨⟨"b", "f1", "f2", "o"⟩, 0⟩)])).1 (by decide)
    rw [h]
    rfl
  · exact (supervisor_batched_polling
      (fun _ batch => batch.map fun x => ⟨x, "SUCCEEDED", none⟩)
      (fun _ => "n") 3 "q" "jd" 5 5
      (initState [("ja", ⟨⟨"a", "f1", "f2", "o"⟩, 0⟩),
        ("jb", ⟨⟨"b", "f1", "f2", "o"⟩, 0⟩)])).2.2.2
      ⟨"ja", "SUCCEEDED", none⟩ "jb" (by decide) (fun _ => by decide)

/-! ## The canonical retry scenario, round by round -/

theorem monitor_jobs_succ (describe : Nat → List String → List JobInfo)
    (submitO : Nat → String) (max_retries : Nat)
    (job_queue job_definition : String) (chunk_size zstd_level : Nat)
    (fuel : Nat) (s : MonState) :
    monitor_jobs describe submitO max_retries job_queue job_definition
      chunk_size zstd_level (fuel + 1) s =
      if s.crashed then s
      else if s.tracker.isEmpty then s
      else monitor_jobs describe submitO max_retries job_queue job_definition
        chunk_size zstd_level fuel
        (pollRound describe submitO max_retries job_queue job_definition
          chunk_size zstd_level s) := rfl

theorem handleStr_succ_ne (i : Nat) : handleStr (i + 1) ≠ handleStr i := by
  intro e
  have hl := congrArg (fun s : String => s.data.length) e
  simp [handleStr] at hl

/-- A failing round within the retry budget advances the scenario by one
attempt: the old entry is replaced by one with the next fresh handle and
`attempt + 1`, and exactly one resubmission call is made. -/
theorem pollRound_scenState (sample : Sample) (jq jd : String)
    (cs zl mr f i : Nat) (hif : i < f) (him : i < mr) :
    pollRound (scenDescribe f) scenSubmit mr jq jd cs zl
      (scenState sample jq jd cs zl mr i) =
      scenState sample jq jd cs zl mr (i + 1) := by
  have hne : handleStr (i + 1) ≠ handleStr i := handleStr_succ_ne i
  have hstep : pollRound (scenDescribe f) scenSubmit mr jq jd cs zl
      (scenState sample jq jd cs zl mr i) =
      pollBatch (scenDescribe f) scenSubmit mr jq jd cs zl
        (scenState sample jq jd cs zl mr i) [handleStr i] := by
    rw [pollRound]
    rw [show (scenState sample jq jd cs zl mr i).tracker.map Prod.fst =
      [handleStr i] from rfl]
    rw [show chunksOf 100 [handleStr i] = [[handleStr i]] from rfl]
    rw [List.foldl_cons, List.foldl_nil]
  rw [hstep, pollBatch, if_neg (by simp [scenState])]
  have hdlen : (scenState sample jq jd cs zl mr i).dLog.length = i := by
    simp [scenState]
  simp only [hdlen]
  rw [show scenDescribe f i [handleStr i] =
    [⟨handleStr i, "FAILED", some "X"⟩] by simp [scenDescribe, hif]]
  rw [List.foldl_cons, List.foldl_nil]
  rw [processInfo_eq_retry ⟨sample, i⟩ rfl (by simp [scenState, lookupKey]) rfl him]
  simp only [scenState, scenRetryLine, scenCall, scenSubmit]
  rw [show insertKey [(handleStr i, (⟨sample, i⟩ : PendingJob))]
      (handleStr (i + 1)) ⟨sample, i + 1⟩ =
      [(handleStr i, ⟨sample, i⟩), (handleStr (i + 1), ⟨sample, i + 1⟩)] by
    simp [insertKey, Ne.symm hne]]
  rw [show eraseKey [(handleStr i, (⟨sample, i⟩ : PendingJob)),
      (handleStr (i + 1), ⟨sample, i + 1⟩)] (handleStr i) =
      [(handleStr (i + 1), ⟨sample, i + 1⟩)] by simp [eraseKey]]
  rw [List.range_succ, List.replicate_succ']
  simp
  rw [scenRetryLine]

/-- A round whose status query reports `SUCCEEDED` ends the scenario: the
entry (then on attempt `i`) is removed, success is printed, and no further
submission happens. -/
theorem pollRound_scenState_success (sample : Sample) (jq jd : String)
    (cs zl mr f i : Nat) (hif : f ≤ i) :
    pollRound (scenDescribe f) scenSubmit mr jq jd cs zl
      (scenState sample jq jd cs zl mr i) =
      { tracker := []
        out := (List.range i).map (scenRetryLine sample mr) ++
          ["✓ " ++ sample.id ++ " succeeded"]
        dLog := (List.range (i + 1)).map fun k => [handleStr k]
        subs := List.replicate i (scenCall sample jq jd cs zl)
        sCalls := i
        crashed := false } := by
  have hstep : pollRound (scenDescribe f) scenSubmit mr jq jd cs zl
      (scenState sample jq jd cs zl mr i) =
      pollBatch (scenDescribe f) scenSubmit mr jq jd cs zl
        (scenState sample jq jd cs zl mr i) [handleStr i] := by
    rw [pollRound]
    rw [show (scenState sample jq jd cs zl mr i).tracker.map Prod.fst =
      [handleStr i] from rfl]
    rw [show chunksOf 100 [handleStr i] = [[handleStr i]] from rfl]
    rw [List.foldl_cons, List.foldl_nil]
  rw [hstep, pollBatch, if_neg (by simp [scenState])]
  have hdlen : (scenState sample jq jd cs zl mr i).dLog.length = i := by
    simp [scenState]
  simp only [hdlen]
  rw [show scenDescribe f i [handleStr i] =
    [⟨handleStr i, "SUCCEEDED", some "X"⟩] by
      simp [scenDescribe, Nat.not_lt.mpr hif]]
  rw [List.foldl_cons, List.foldl_nil]
  rw [processInfo_eq_succeeded ⟨sample, i⟩ rfl
    (by simp [scenState, lookupKey]) rfl]
  simp only [scenState]
  rw [show eraseKey [(handleStr i, (⟨sample, i⟩ : PendingJob))]
    (handleStr i) = [] by simp [eraseKey]]
  rw [List.range_succ]
  simp

/-- A round whose status query reports `FAILED` with the retry budget
exhausted ends the scenario: the entry is removed, permanent failure is
printed with the last failure reason, and no further submission happens. -/
theorem pollRound_scenState_permfail (sample : Sample) (jq jd : String)
    (cs zl mr f i : Nat) (hif : i < f) (him : ¬ i < mr) :
    pollRound (scenDescribe f) scenSubmit mr jq jd cs zl
      (scenState sample jq jd cs zl mr i) =
      { tracker := []
        out := (List.range i).map (scenRetryLine sample mr) ++
          ["✗ " ++ sample.id ++ " failed permanently after " ++
            toString (mr + 1) ++ " attempts - Reason: " ++ "X"]
        dLog := (List.range (i + 1)).map fun k => [handleStr k]
        subs := List.replicate i (scenCall sample jq jd cs zl)
        sCalls := i
        crashed := false } := by
  have hstep : pollRound (scenDescribe f) scenSubmit mr jq jd cs zl
      (scenState sample jq jd cs zl mr i) =
      pollBatch (scenDescribe f) scenSubmit mr jq jd cs zl
        (scenState sample jq jd cs zl mr i) [handleStr i] := by
    rw [pollRound]
    rw [show (scenState sample jq jd cs zl mr i).tracker.map Prod.fst =
      [handleStr i] from rfl]
    rw [show chunksOf 100 [handleStr i] = [[handleStr i]] from rfl]
    rw [List.foldl_cons, List.foldl_nil]
  rw [hstep, pollBatch, if_neg (by simp [scenState])]
  have hdlen : (scenState sample jq jd cs zl mr i).dLog.length = i := by
    simp [scenState]
  simp only [hdlen]
  rw [show scenDescribe f i [handleStr i] =
    [⟨handleStr i, "FAILED", some "X"⟩] by simp [scenDescribe, hif]]
  rw [List.foldl_cons, List.foldl_nil]
  rw [processInfo_eq_permfail ⟨sample, i⟩ rfl
    (by simp [scenState, lookupKey]) rfl him]
  simp only [scenState]
  rw [show eraseKey [(handleStr i, (⟨sample, i⟩ : PendingJob))]
    (handleStr i) = [] by simp [eraseKey]]
  rw [List.range_succ]
  simp

/-- Running `i` failing rounds (within budget) from the initial scenario
state reaches the start-of-round-`i` state. -/
theorem monitor_scenState_reach (sample : Sample) (jq jd : String)
    (cs zl mr f : Nat) :
    ∀ i, i ≤ mr → i ≤ f → ∀ fuel,
      monitor_jobs (scenDescribe f) scenSubmit mr jq jd cs zl (i + fuel)
        (scenState sample jq jd cs zl mr 0) =
      monitor_jobs (scenDescribe f) scenSubmit mr jq jd cs zl fuel
        (scenState sample jq jd cs zl mr i) := by
  intro i
  induction i with
  | zero =>
    intro _ _ fuel
    rw [Nat.zero_add]
  | succ i ih =>
    intro him hif fuel
    have h1 : i + 1 + fuel = i + (fuel + 1) := by omega
    rw [h1, ih (by omega) (by omega) (fuel + 1)]
    rw [monitor_jobs_succ]
    rw [if_neg (by simp [scenState]), if_neg (by simp [scenState])]
    rw [pollRound_scenState sample jq jd cs zl mr f i (by omega) (by omega)]

/-- C1: a tracked job polled as FAILED is retried while `attempt <
max_retries` — the same work unit is resubmitted (exactly one new
submission call), a new entry with `attempt + 1` appears under the freshly
returned handle, and the old entry is removed; at `attempt >= max_retries`
the entry is removed with no further submission and the permanent failure
is recorded with the last-seen reason.  Consequently (canonical scenario):
a unit failing exactly `max_retries` times and then succeeding ends
SUCCEEDED on attempt `max_retries` after exactly `max_retries`
resubmissions, and a unit failing `max_retries + 1` times ends permanently
FAILED. -/
theorem supervisor_retry_policy :
    (∀ (submitO : Nat → String) (mr : Nat) (jq jd : String) (cs zl : Nat)
      (s : MonState) (info : JobInfo) (pj : PendingJob),
      s.crashed = false → lookupKey s.tracker info.jobId = some pj →
      info.status = "FAILED" → pj.retry_count < mr →
      (s.tracker.map Prod.fst).Nodup →
      submitO s.sCalls ∉ s.tracker.map Prod.fst →
      lookupKey (processInfo submitO mr jq jd cs zl s info).tracker
          (submitO s.sCalls) = some ⟨pj.sample, pj.retry_count + 1⟩
        ∧ lookupKey (processInfo submitO mr jq jd cs zl s info).tracker
          info.jobId = none
        ∧ (processInfo submitO mr jq jd cs zl s info).subs =
          s.subs ++ [⟨"sizer-" ++ pj.sample.id, jq, jd,
            sizerCommand pj.sample cs zl⟩]
        ∧ (processInfo submitO mr jq jd cs zl s info).sCalls = s.sCalls + 1)
    ∧ (∀ (submitO : Nat → String) (mr : Nat) (jq jd : String) (cs zl : Nat)
      (s : MonState) (info : JobInfo) (pj : PendingJob),
      s.crashed = false → lookupKey s.tracker info.jobId = some pj →
      info.status = "FAILED" → ¬ pj.retry_count < mr →
      (s.tracker.map Prod.fst).Nodup →
      lookupKey (processInfo submitO mr jq jd cs zl s info).tracker
          info.jobId = none
        ∧ (processInfo submitO mr jq jd cs zl s info).subs = s.subs
        ∧ (processInfo submitO mr jq jd cs zl s info).sCalls = s.sCalls
        ∧ (processInfo submitO mr jq jd cs zl s info).out = s.out ++
          ["✗ " ++ pj.sample.id ++ " failed permanently after " ++
            toString (mr + 1) ++ " attempts - Reason: " ++
            info.statusReason.getD "Unknown"])
    ∧ (∀ (sample : Sample) (jq jd : String) (cs zl mr : Nat),
      monitor_jobs (scenDescribe mr) scenSubmit mr jq jd cs zl (mr + 1)
        (scenState sample jq jd cs zl mr 0) =
        { tracker := []
          out := (List.range mr).map (scenRetryLine sample mr) ++
            ["✓ " ++ sample.id ++ " succeeded"]
          dLog := (List.range (mr + 1)).map fun k => [handleStr k]
          subs := List.replicate mr (scenCall sample jq jd cs zl)
          sCalls := mr
          crashed := false })
    ∧ (∀ (sample : Sample) (jq jd : String) (cs zl mr : Nat),
      monitor_jobs (scenDescribe (mr + 1)) scenSubmit mr jq jd cs zl (mr + 1)
        (scenState sample jq jd cs zl mr 0) =
        { tracker := []
          out := (List.range mr).map (scenRetryLine sample mr) ++
            ["✗ " ++ sample.id ++ " failed permanently after " ++
              toString (mr + 1) ++ " attempts - Reason: " ++ "X"]
          dLog := (List.range (mr + 1)).map fun k => [handleStr k]
          subs := List.replicate mr (scenCall sample jq jd cs zl)
          sCalls := mr
          crashed := false }) := by
  refine ⟨?_, ?_, ?_, ?_⟩
  · intro submitO mr jq jd cs zl s info pj hc hl hs hr hnd hfr
    have hmem : info.jobId ∈ s.tracker.map Prod.fst :=
      mem_of_lookupKey_eq_some hl
    have hne : submitO s.sCalls ≠ info.jobId := fun e => hfr (e ▸ hmem)
    rw [processInfo_eq_retry pj hc hl hs hr]
    refine ⟨?_, ?_, rfl, rfl⟩
    · show lookupKey (eraseKey (insertKey s.tracker (submitO s.sCalls)
        ⟨pj.sample, pj.retry_count + 1⟩) info.jobId) (submitO s.sCalls) = _
      rw [lookupKey_eraseKey_ne hne, lookupKey_insertKey_self]
    · show lookupKey (eraseKey (insertKey s.tracker (submitO s.sCalls)
        ⟨pj.sample, pj.retry_count + 1⟩) info.jobId) info.jobId = none
      rw [insertKey_of_not_mem _ hfr, eraseKey_append_left _ hmem,
        lookupKey_append, lookupKey_eraseKey_self hnd]
      simp only [lookupKey, Option.none_or]
      rw [if_neg hne]
  · intro submitO mr jq jd cs zl s info pj hc hl hs hr hnd
    rw [processInfo_eq_permfail pj hc hl hs hr]
    exact ⟨lookupKey_eraseKey_self hnd, rfl, rfl, rfl⟩
  · intro sample jq jd cs zl mr
    rw [monitor_scenState_reach sample jq jd cs zl mr mr mr le_rfl le_rfl 1]
    rw [monitor_jobs_succ]
    rw [if_neg (by simp [scenState]), if_neg (by simp [scenState])]
    rw [pollRound_scenState_success sample jq jd cs zl mr mr mr le_rfl]
    rfl
  · intro sample jq jd cs zl mr
    rw [monitor_scenState_reach sample jq jd cs zl mr (mr + 1) mr le_rfl
      (by omega) 1]
    rw [monitor_jobs_succ]
    rw [if_neg (by simp [scenState]), if_neg (by simp [scenState])]
    rw [pollRound_scenState_permfail sample jq jd cs zl mr (mr + 1) mr
      (by omega) (by omega)]
    rfl

/-- C1 witness: one FAILED result on attempt 0 (budget 3) replaces the
entry under the fresh handle with attempt 1; one FAILED result on attempt 3
removes the entry. -/
theorem supervisor_retry_policy_witness :
    (lookupKey (processInfo (fun _ => "n") 3 "q" "jd" 5 5
      (initState [("j", ⟨⟨"a", "f1", "f2", "o"⟩, 0⟩)])
      ⟨"j", "FAILED", some "R"⟩).tracker "n" =
        some ⟨⟨"a", "f1", "f2", "o"⟩, 1⟩)
    ∧ (lookupKey (processInfo (fun _ => "n") 3 "q" "jd" 5 5
      (initState [("j", ⟨⟨"a", "f1", "f2", "o"⟩, 0⟩)])
      ⟨"j", "FAILED", some "R"⟩).tracker "j" = none)
    ∧ (lookupKey (processInfo (fun _ => "n") 3 "q" "jd" 5 5
      (initState [("j", ⟨⟨"a", "f1", "f2", "o"⟩, 3⟩)])
      ⟨"j", "FAILED", some "R"⟩).tracker "j" = none) := by
  have hA := (supervisor_retry_policy).1 (fun _ => "n") 3 "q" "jd" 5 5
    (initState [("j", ⟨⟨"a", "f1", "f2", "o"⟩, 0⟩)])
    ⟨"j", "FAILED", some "R"⟩ ⟨⟨"a", "f1", "f2", "o"⟩, 0⟩
    rfl (by decide) rfl (by decide) (by decide) (by decide)
  have hB := (supervisor_retry_policy).2.1 (fun _ => "n") 3 "q" "jd" 5 5
    (initState [("j", ⟨⟨"a", "f1", "f2", "o"⟩, 3⟩)])
    ⟨"j", "FAILED", some "R"⟩ ⟨⟨"a", "f1", "f2", "o"⟩, 3⟩
    rfl (by decide) rfl (by decide) (by decide)
  exact ⟨hA.1, hA.2.1, hB.1⟩

/-! ## Preservation of the supervision invariant -/

theorem processInfo_TrackInv {K₀ I₀ : List String} {n₀ : Nat}
    {submitO : Nat → String} {mr : Nat} {jq jd : String} {cs zl : Nat}
    {s : MonState} {info : JobInfo}
    (hinj : ∀ j k, submitO j = submitO k → j = k)
    (hfr : ∀ k, submitO k ∉ K₀)
    (hinv : TrackInv K₀ I₀ n₀ submitO s) :
    TrackInv K₀ I₀ n₀ submitO (processInfo submitO mr jq jd cs zl s info) := by
  obtain ⟨hnd, hid, hks, his, hlen⟩ := hinv
  have herase : ∀ h : String,
      ((eraseKey s.tracker h).map Prod.fst).Nodup ∧
      (trackedIds (eraseKey s.tracker h)).Nodup ∧
      (∀ h' ∈ (eraseKey s.tracker h).map Prod.fst,
        h' ∈ K₀ ∨ ∃ j, j < s.sCalls ∧ h' = submitO j) ∧
      (∀ i ∈ trackedIds (eraseKey s.tracker h), i ∈ I₀) ∧
      (eraseKey s.tracker h).length ≤ n₀ := by
    intro h
    have hsub := eraseKey_sublist s.tracker h
    exact ⟨(hsub.map Prod.fst).nodup hnd,
      (hsub.map _).nodup hid,
      fun h' hm => hks h' ((hsub.map Prod.fst).mem hm),
      fun i hm => his i ((hsub.map _).mem hm),
      hsub.length_le.trans hlen⟩
  by_cases hc : s.crashed = true
  · rw [processInfo_eq_crashed hc]
    exact ⟨hnd, hid, hks, his, hlen⟩
  rw [Bool.not_eq_true] at hc
  cases hl : lookupKey s.tracker info.jobId with
  | none =>
    rw [processInfo_eq_keyerror hc hl]
    exact ⟨hnd, hid, hks, his, hlen⟩
  | some pj =>
    by_cases hs1 : info.status = "SUCCEEDED"
    · rw [processInfo_eq_succeeded pj hc hl hs1]
      exact herase info.jobId
    by_cases hs2 : info.status = "FAILED"
    swap
    · rw [processInfo_eq_other pj hc hl hs1 hs2]
      exact ⟨hnd, hid, hks, his, hlen⟩
    by_cases hr : pj.retry_count < mr
    swap
    · rw [processInfo_eq_permfail pj hc hl hs2 hr]
      exact herase info.jobId
    · rw [processInfo_eq_retry pj hc hl hs2 hr]
      have hfmem : submitO s.sCalls ∉ s.tracker.map Prod.fst := by
        intro hm
        rcases hks _ hm with h0 | ⟨j, hj, he⟩
        · exact hfr s.sCalls h0
        · exact absurd (hinj j s.sCalls he.symm) (by omega)
      have hmem : info.jobId ∈ s.tracker.map Prod.fst :=
        mem_of_lookupKey_eq_some hl
      obtain ⟨t₁, t₂, ht, hm1, her⟩ := lookupKey_decomp hl
      have htr' : eraseKey (insertKey s.tracker (submitO s.sCalls)
          ⟨pj.sample, pj.retry_count + 1⟩) info.jobId =
          (t₁ ++ t₂) ++ [(submitO s.sCalls,
            ⟨pj.sample, pj.retry_count + 1⟩)] := by
        rw [insertKey_of_not_mem _ hfmem, eraseKey_append_left _ hmem, her]
      have hsub2 : List.Sublist (t₁ ++ t₂) s.tracker := by
        rw [← her]
        exact eraseKey_sublist s.tracker info.jobId
      have hpermk : ((t₁ ++ t₂).map Prod.fst ++ [submitO s.sCalls]).Perm
          (submitO s.sCalls :: (t₁ ++ t₂).map Prod.fst) :=
        List.perm_append_singleton _ _
      have hpermi : (trackedIds ((t₁ ++ t₂) ++ [(submitO s.sCalls,
          (⟨pj.sample, pj.retry_count + 1⟩ : PendingJob))])).Perm
          (trackedIds s.tracker) := by
        rw [ht]
        simp only [trackedIds, List.map_append, List.map_cons,
          List.map_singleton]
        exact (List.perm_append_singleton _ _).trans List.perm_middle.symm
      unfold TrackInv
      dsimp only
      rw [htr']
      refine ⟨?_, ?_, ?_, ?_, ?_⟩
      · rw [List.map_append]
        refine hpermk.symm.nodup ?_
        rw [List.nodup_cons]
        exact ⟨fun hm => hfmem ((hsub2.map Prod.fst).mem hm),
          (hsub2.map Prod.fst).nodup hnd⟩
      · exact hpermi.symm.nodup hid
      · intro h' hm
        rw [List.map_append] at hm
        rcases List.mem_append.mp hm with hm | hm
        · rcases hks h' ((hsub2.map Prod.fst).mem hm) with h0 | ⟨j, hj, he⟩
          · exact Or.inl h0
          · exact Or.inr ⟨j, by omega, he⟩
        · rcases List.mem_singleton.mp hm with rfl
          exact Or.inr ⟨s.sCalls, by omega, rfl⟩
      · intro i hm
        exact his i (hpermi.subset hm)
      · rw [ht] at hlen
        simp only [List.length_append, List.length_cons,
          List.length_singleton, List.length_nil] at hlen ⊢
        omega

theorem foldl_processInfo_TrackInv {K₀ I₀ : List String} {n₀ : Nat}
    {submitO : Nat → String} {mr : Nat} {jq jd : String} {cs zl : Nat}
    (resp : List JobInfo) {s : MonState}
    (hinj : ∀ j k, submitO j = submitO k → j = k)
    (hfr : ∀ k, submitO k ∉ K₀)
    (hinv : TrackInv K₀ I₀ n₀ submitO s) :
    TrackInv K₀ I₀ n₀ submitO
      (resp.foldl (processInfo submitO mr jq jd cs zl) s) := by
  induction resp generalizing s with
  | nil => exact hinv
  | cons i resp ih =>
    rw [List.foldl_cons]
    exact ih (processInfo_TrackInv hinj hfr hinv)

theorem pollBatch_TrackInv {K₀ I₀ : List String} {n₀ : Nat}
    {describe : Nat → List String → List JobInfo} {submitO : Nat → String}
    {mr : Nat} {jq jd : String} {cs zl : Nat} {s : MonState}
    (b : List String)
    (hinj : ∀ j k, submitO j = submitO k → j = k)
    (hfr : ∀ k, submitO k ∉ K₀)
    (hinv : TrackInv K₀ I₀ n₀ submitO s) :
    TrackInv K₀ I₀ n₀ submitO
      (pollBatch describe submitO mr jq jd cs zl s b) := by
  rw [pollBatch]
  by_cases hc : s.crashed = true
  · rw [if_pos hc]
    exact hinv
  · rw [if_neg hc]
    exact foldl_processInfo_TrackInv _ hinj hfr hinv

theorem pollRound_TrackInv {K₀ I₀ : List String} {n₀ : Nat}
    (describe : Nat → List String → List JobInfo) {submitO : Nat → String}
    (mr : Nat) (jq jd : String) (cs zl : Nat) {s : MonState}
    (hinj : ∀ j k, submitO j = submitO k → j = k)
    (hfr : ∀ k, submitO k ∉ K₀)
    (hinv : TrackInv K₀ I₀ n₀ submitO s) :
    TrackInv K₀ I₀ n₀ submitO
      (pollRound describe submitO mr jq jd cs zl s) := by
  rw [pollRound]
  generalize chunksOf 100 (s.tracker.map Prod.fst) = batches
  induction batches generalizing s with
  | nil => exact hinv
  | cons b bs ih =>
    rw [List.foldl_cons]
    exact ih (pollBatch_TrackInv b hinj hfr hinv)

/-- One classification step preserves the mid-round invariant: units are
only dropped by a terminal classification, a retried unit keeps exactly one
(replaced) entry, and snapshot handles keep their round-start binding until
removed.  `hjob` says the processed result names a round-start handle, as
`describe_jobs` only reports on the handles it was queried with. -/
theorem processInfo_RoundInv {describe : Nat → List String → List JobInfo}
    {mr : Nat} {submitO : Nat → String} {t₀ : Tracker} {jq jd : String}
    {cs zl : Nat} {s : MonState} {info : JobInfo}
    (hinj : ∀ j k, submitO j = submitO k → j = k)
    (hfr : ∀ k, submitO k ∉ t₀.map Prod.fst)
    (hinfo : ∃ n batch, info ∈ describe n batch)
    (hjob : info.jobId ∈ t₀.map Prod.fst)
    (hinv : RoundInv describe mr submitO t₀ s) :
    RoundInv describe mr submitO t₀
      (processInfo submitO mr jq jd cs zl s info) := by
  obtain ⟨hti, hsnap, hids⟩ := hinv
  have hTI : TrackInv (t₀.map Prod.fst) (trackedIds t₀) t₀.length submitO
      (processInfo submitO mr jq jd cs zl s info) :=
    processInfo_TrackInv hinj hfr hti
  by_cases hc : s.crashed = true
  · rw [processInfo_eq_crashed hc] at hTI ⊢
    exact ⟨hTI, hsnap, hids⟩
  rw [Bool.not_eq_true] at hc
  cases hl : lookupKey s.tracker info.jobId with
  | none =>
    rw [processInfo_eq_keyerror hc hl] at hTI ⊢
    exact ⟨hTI, hsnap, hids⟩
  | some pj =>
    have hpj0 : lookupKey t₀ info.jobId = some pj := by
      rcases hsnap info.jobId hjob with h | h
      · rw [h] at hl
        exact hl
      · rw [hl] at h
        exact absurd h (by simp)
    have hndk : (s.tracker.map Prod.fst).Nodup := hti.1
    have hfresh : submitO s.sCalls ∉ s.tracker.map Prod.fst := by
      intro hm
      rcases hti.2.2.1 _ hm with h0 | ⟨j, hj, he⟩
      · exact hfr s.sCalls h0
      · exact absurd (hinj j s.sCalls he.symm) (by omega)
    obtain ⟨t₁, t₂, ht, hm1, her⟩ := lookupKey_decomp hl
    have hmem : info.jobId ∈ s.tracker.map Prod.fst :=
      mem_of_lookupKey_eq_some hl
    have hidsdec : trackedIds s.tracker =
        trackedIds t₁ ++ pj.sample.id :: trackedIds t₂ := by
      rw [ht]
      simp [trackedIds]
    have hidsafter : trackedIds (t₁ ++ t₂) =
        trackedIds t₁ ++ trackedIds t₂ := by
      simp [trackedIds]
    obtain ⟨n0, b0, hnb⟩ := hinfo
    by_cases hs1 : info.status = "SUCCEEDED"
    · rw [processInfo_eq_succeeded pj hc hl hs1] at hTI ⊢
      refine ⟨hTI, ?_, ?_⟩
      · intro h hK
        dsimp only
        by_cases hh : h = info.jobId
        · subst hh
          exact Or.inr (lookupKey_eraseKey_self hndk)
        · rcases hsnap h hK with h' | h'
          · refine Or.inl ?_
            rw [lookupKey_eraseKey_ne hh, h']
          · refine Or.inr ?_
            rw [lookupKey_eraseKey_ne hh, h']
      · intro id hid0
        rcases hids id hid0 with hidm | hcert
        · dsimp only
          rw [her, hidsafter]
          rw [hidsdec] at hidm
          rcases List.mem_append.mp hidm with hA | hB
          · exact Or.inl (List.mem_append.mpr (Or.inl hA))
          · rcases List.mem_cons.mp hB with rfl | hB'
            · exact Or.inr ⟨n0, b0, info, pj, hnb, hpj0, rfl, Or.inl hs1⟩
            · exact Or.inl (List.mem_append.mpr (Or.inr hB'))
        · exact Or.inr hcert
    by_cases hs2 : info.status = "FAILED"
    swap
    · rw [processInfo_eq_other pj hc hl hs1 hs2] at hTI ⊢
      exact ⟨hTI, hsnap, hids⟩
    by_cases hr : pj.retry_count < mr
    swap
    · rw [processInfo_eq_permfail pj hc hl hs2 hr] at hTI ⊢
      refine ⟨hTI, ?_, ?_⟩
      · intro h hK
        dsimp only
        by_cases hh : h = info.jobId
        · subst hh
          exact Or.inr (lookupKey_eraseKey_self hndk)
        · rcases hsnap h hK with h' | h'
          · refine Or.inl ?_
            rw [lookupKey_eraseKey_ne hh, h']
          · refine Or.inr ?_
            rw [lookupKey_eraseKey_ne hh, h']
      · intro id hid0
        rcases hids id hid0 with hidm | hcert
        · dsimp only
          rw [her, hidsafter]
          rw [hidsdec] at hidm
          rcases List.mem_append.mp hidm with hA | hB
          · exact Or.inl (List.mem_append.mpr (Or.inl hA))
          · rcases List.mem_cons.mp hB with rfl | hB'
            · exact Or.inr ⟨n0, b0, info, pj, hnb, hpj0, rfl,
                Or.inr ⟨hs2, Nat.not_lt.mp hr⟩⟩
            · exact Or.inl (List.mem_append.mpr (Or.inr hB'))
        · exact Or.inr hcert
    · rw [processInfo_eq_retry pj hc hl hs2 hr] at hTI ⊢
      have htr' : eraseKey (insertKey s.tracker (submitO s.sCalls)
          ⟨pj.sample, pj.retry_count + 1⟩) info.jobId =
          (t₁ ++ t₂) ++ [(submitO s.sCalls,
            ⟨pj.sample, pj.retry_count + 1⟩)] := by
        rw [insertKey_of_not_mem _ hfresh, eraseKey_append_left _ hmem, her]
      refine ⟨hTI, ?_, ?_⟩
      · intro h hK
        dsimp only
        have hhfresh : h ≠ submitO s.sCalls := fun e => hfr s.sCalls (e ▸ hK)
        by_cases hh : h = info.jobId
        · subst hh
          refine Or.inr ?_
          rw [htr', lookupKey_append]
          have h1 : lookupKey (t₁ ++ t₂) info.jobId = none := by
            rw [← her]
            exact lookupKey_eraseKey_self hndk
          rw [h1]
          simp only [Option.none_or, lookupKey]
          rw [if_neg (Ne.symm hhfresh)]
        · rcases hsnap h hK with h' | h'
          · refine Or.inl ?_
            rw [lookupKey_eraseKey_ne hh, lookupKey_insertKey_ne hhfresh, h']
          · refine Or.inr ?_
            rw [lookupKey_eraseKey_ne hh, lookupKey_insertKey_ne hhfresh, h']
      · intro id hid0
        rcases hids id hid0 with hidm | hcert
        · refine Or.inl ?_
          dsimp only
          rw [htr']
          have hafter : trackedIds ((t₁ ++ t₂) ++ [(submitO s.sCalls,
              (⟨pj.sample, pj.retry_count + 1⟩ : PendingJob))]) =
              (trackedIds t₁ ++ trackedIds t₂) ++ [pj.sample.id] := by
            simp [trackedIds]
          rw [hafter]
          rw [hidsdec] at hidm
          rcases List.mem_append.mp hidm with hA | hB
          · exact List.mem_append.mpr (Or.inl (List.mem_append.mpr
              (Or.inl hA)))
          · rcases List.mem_cons.mp hB with rfl | hB'
            · exact List.mem_append.mpr (Or.inr (List.mem_singleton.mpr rfl))
            · exact List.mem_append.mpr (Or.inl (List.mem_append.mpr
                (Or.inr hB')))
        · exact Or.inr hcert

theorem foldl_processInfo_RoundInv
    {describe : Nat → List String → List JobInfo} {mr : Nat}
    {submitO : Nat → String} {t₀ : Tracker} {jq jd : String} {cs zl : Nat}
    (resp : List JobInfo) {s : MonState}
    (hinj : ∀ j k, submitO j = submitO k → j = k)
    (hfr : ∀ k, submitO k ∉ t₀.map Prod.fst)
    (hresp : ∀ info ∈ resp, (∃ n batch, info ∈ describe n batch) ∧
      info.jobId ∈ t₀.map Prod.fst)
    (hinv : RoundInv describe mr submitO t₀ s) :
    RoundInv describe mr submitO t₀
      (resp.foldl (processInfo submitO mr jq jd cs zl) s) := by
  induction resp generalizing s with
  | nil => exact hinv
  | cons i resp ih =>
    rw [List.foldl_cons]
    exact ih (fun info hm => hresp info (List.mem_cons_of_mem _ hm))
      (processInfo_RoundInv hinj hfr (hresp i (List.mem_cons_self i resp)).1
        (hresp i (List.mem_cons_self i resp)).2 hinv)

theorem pollBatch_RoundInv {describe : Nat → List String → List JobInfo}
    {mr : Nat} {submitO : Nat → String} {t₀ : Tracker} {jq jd : String}
    {cs zl : Nat} {s : MonState} (b : List String)
    (hinj : ∀ j k, submitO j = submitO k → j = k)
    (hfr : ∀ k, submitO k ∉ t₀.map Prod.fst)
    (hb : ∀ h ∈ b, h ∈ t₀.map Prod.fst)
    (hresp : ∀ n batch, ∀ info ∈ describe n batch, info.jobId ∈ batch)
    (hinv : RoundInv describe mr submitO t₀ s) :
    RoundInv describe mr submitO t₀
      (pollBatch describe submitO mr jq jd cs zl s b) := by
  rw [pollBatch]
  by_cases hc : s.crashed = true
  · rw [if_pos hc]
    exact hinv
  · rw [if_neg hc]
    exact foldl_processInfo_RoundInv _ hinj hfr
      (fun info hm => ⟨⟨s.dLog.length, b, hm⟩,
        hb info.jobId (hresp s.dLog.length b info hm)⟩) hinv

theorem foldl_pollBatch_RoundInv
    {describe : Nat → List String → List JobInfo} {mr : Nat}
    {submitO : Nat → String} {t₀ : Tracker} {jq jd : String} {cs zl : Nat}
    (bs : List (List String)) {s : MonState}
    (hinj : ∀ j k, submitO j = submitO k → j = k)
    (hfr : ∀ k, submitO k ∉ t₀.map Prod.fst)
    (hbs : ∀ b ∈ bs, ∀ h ∈ b, h ∈ t₀.map Prod.fst)
    (hresp : ∀ n batch, ∀ info ∈ describe n batch, info.jobId ∈ batch)
    (hinv : RoundInv describe mr submitO t₀ s) :
    RoundInv describe mr submitO t₀
      (bs.foldl (pollBatch describe submitO mr jq jd cs zl) s) := by
  induction bs generalizing s with
  | nil => exact hinv
  | cons b bs ih =>
    rw [List.foldl_cons]
    exact ih (fun b' hb' => hbs b' (List.mem_cons_of_mem _ hb'))
      (pollBatch_RoundInv b hinj hfr (hbs b (List.mem_cons_self b bs))
        hresp hinv)

/-- A full polling round started on a duplicate-free table satisfies the
mid-round invariant at its end: in particular every round-start unit is
still tracked afterwards unless a response terminally classified it. -/
theorem pollRound_RoundInv (describe : Nat → List String → List JobInfo)
    {submitO : Nat → String} (mr : Nat) (jq jd : String) (cs zl : Nat)
    {s : MonState}
    (hinj : ∀ j k, submitO j = submitO k → j = k)
    (hfr : ∀ k, submitO k ∉ s.tracker.map Prod.fst)
    (hresp : ∀ n batch, ∀ info ∈ describe n batch, info.jobId ∈ batch)
    (hnd : (s.tracker.map Prod.fst).Nodup)
    (hid : (trackedIds s.tracker).Nodup) :
    RoundInv describe mr submitO s.tracker
      (pollRound describe submitO mr jq jd cs zl s) := by
  have hinv0 : RoundInv describe mr submitO s.tracker s :=
    ⟨⟨hnd, hid, fun h hm => Or.inl hm, fun i hm => hm, le_rfl⟩,
     fun h _ => Or.inl rfl, fun id hm => Or.inl hm⟩
  have hbs : ∀ b ∈ chunksOf 100 (s.tracker.map Prod.fst), ∀ h ∈ b,
      h ∈ s.tracker.map Prod.fst := by
    intro b hb h hh
    rw [← chunksOf_join (s.tracker.map Prod.fst)]
    exact List.mem_flatten.mpr ⟨b, hb, hh⟩
  rw [pollRound]
  exact foldl_pollBatch_RoundInv _ hinj hfr hbs hresp hinv0

/-- C2: if at the start of a polling round the tracked table has exactly one
entry per logical unit (no duplicate handles or unit ids), then at the start
of the next round it still does — never more than one: handles and tracked
unit ids stay duplicate-free, every still-tracked unit was tracked before,
per-unit entry counts never grow (retries replace rather than append), the
entry count never exceeds the round-start count of logical units — and
never zero: when responses only report on queried handles (the
`describe_jobs` contract), every round-start unit is still tracked at the
next round start unless some response terminally classified it
(`SUCCEEDED`, or `FAILED` with its retry budget exhausted); in particular a
retried or still-running unit keeps exactly one entry, so the tracked-entry
count equals the number of logical units not yet at a terminal state.  The
`hinj`/`hfr` hypotheses say the batch runner mints pairwise-distinct fresh
handles that do not collide with the tracked ones. -/
theorem supervisor_tracking_invariant
    (describe : Nat → List String → List JobInfo) (submitO : Nat → String)
    (max_retries : Nat) (job_queue job_definition : String)
    (chunk_size zstd_level : Nat) (s : MonState)
    (hinj : ∀ j k, submitO j = submitO k → j = k)
    (hfr : ∀ k, submitO k ∉ s.tracker.map Prod.fst)
    (hnd : (s.tracker.map Prod.fst).Nodup)
    (hid : (trackedIds s.tracker).Nodup) :
    ((pollRound describe submitO max_retries job_queue job_definition
        chunk_size zstd_level s).tracker.map Prod.fst).Nodup
    ∧ (trackedIds (pollRound describe submitO max_retries job_queue
        job_definition chunk_size zstd_level s).tracker).Nodup
    ∧ (∀ i ∈ trackedIds (pollRound describe submitO max_retries job_queue
        job_definition chunk_size zstd_level s).tracker,
        i ∈ trackedIds s.tracker)
    ∧ (∀ idv : String,
        (trackedIds (pollRound describe submitO max_retries job_queue
          job_definition chunk_size zstd_level s).tracker).count idv ≤
        (trackedIds s.tracker).count idv)
    ∧ (pollRound describe submitO max_retries job_queue job_definition
        chunk_size zstd_level s).tracker.length ≤ s.tracker.length
    ∧ ((∀ n batch, ∀ info ∈ describe n batch, info.jobId ∈ batch) →
        ∀ id ∈ trackedIds s.tracker,
          id ∈ trackedIds (pollRound describe submitO max_retries job_queue
            job_definition chunk_size zstd_level s).tracker ∨
          TerminalCert describe max_retries s.tracker id) := by
  have hinv0 : TrackInv (s.tracker.map Prod.fst) (trackedIds s.tracker)
      s.tracker.length submitO s :=
    ⟨hnd, hid, fun h hm => Or.inl hm, fun i hm => hm, le_rfl⟩
  obtain ⟨h1, h2, h3, h4, h5⟩ :=
    pollRound_TrackInv describe max_retries job_queue job_definition
      chunk_size zstd_level hinj hfr hinv0
  refine ⟨h1, h2, h4, ?_, h5, ?_⟩
  · intro idv
    by_cases hm : idv ∈ trackedIds (pollRound describe submitO max_retries
      job_queue job_definition chunk_size zstd_level s).tracker
    · have hle1 := List.nodup_iff_count_le_one.mp h2 idv
      have hge1 : 1 ≤ (trackedIds s.tracker).count idv :=
        List.count_pos_iff.mpr (h4 idv hm)
      omega
    · rw [List.count_eq_zero_of_not_mem hm]
      exact Nat.zero_le _
  · intro hresp id hm
    exact (pollRound_RoundInv describe max_retries job_queue job_definition
      chunk_size zstd_level hinj hfr hresp hnd hid).2.2 id hm

/-- C2 witness: a one-unit round whose job is reported FAILED within budget
keeps the table duplicate-free with no new units, and the retried unit is
still tracked (never zero). -/
theorem supervisor_tracking_invariant_witness :
    ((pollRound (fun _ batch => batch.map fun x => ⟨x, "FAILED", none⟩)
        (fun k => handleStr (k + 1)) 3 "q" "jd" 5 5
        (initState [("j", ⟨⟨"a", "f1", "f2", "o"⟩, 0⟩)])).tracker.map
        Prod.fst).Nodup
    ∧ (trackedIds (pollRound (fun _ batch => batch.map fun x =>
        ⟨x, "FAILED", none⟩) (fun k => handleStr (k + 1)) 3 "q" "jd" 5 5
        (initState [("j", ⟨⟨"a", "f1", "f2", "o"⟩, 0⟩)])).tracker).Nodup
    ∧ (∀ i ∈ trackedIds (pollRound (fun _ batch => batch.map fun x =>
        ⟨x, "FAILED", none⟩) (fun k => handleStr (k + 1)) 3 "q" "jd" 5 5
        (initState [("j", ⟨⟨"a", "f1", "f2", "o"⟩, 0⟩)])).tracker,
        i ∈ trackedIds (initState
          [("j", ⟨⟨"a", "f1", "f2", "o"⟩, 0⟩)]).tracker)
    ∧ (∀ idv : String,
        (trackedIds (pollRound (fun _ batch => batch.map fun x =>
          ⟨x, "FAILED", none⟩) (fun k => handleStr (k + 1)) 3 "q" "jd" 5 5
          (initState [("j", ⟨⟨"a", "f1", "f2", "o"⟩, 0⟩)])).tracker).count
          idv ≤
        (trackedIds (initState
          [("j", ⟨⟨"a", "f1", "f2", "o"⟩, 0⟩)]).tracker).count idv)
    ∧ (pollRound (fun _ batch => batch.map fun x => ⟨x, "FAILED", none⟩)
        (fun k => handleStr (k + 1)) 3 "q" "jd" 5 5
        (initState [("j", ⟨⟨"a", "f1", "f2", "o"⟩, 0⟩)])).tracker.length ≤
      (initState [("j", ⟨⟨"a", "f1", "f2", "o"⟩, 0⟩)]).tracker.length
    ∧ (∀ id ∈ trackedIds (initState
        [("j", ⟨⟨"a", "f1", "f2", "o"⟩, 0⟩)]).tracker,
        id ∈ trackedIds (pollRound (fun _ batch => batch.map fun x =>
          ⟨x, "FAILED", none⟩) (fun k => handleStr (k + 1)) 3 "q" "jd" 5 5
          (initState [("j", ⟨⟨"a", "f1", "f2", "o"⟩, 0⟩)])).tracker ∨
        TerminalCert (fun _ batch => batch.map fun x =>
          ⟨x, "FAILED", none⟩) 3
          (initState [("j", ⟨⟨"a", "f1", "f2", "o"⟩, 0⟩)]).tracker id) := by
  have h := supervisor_tracking_invariant
    (fun _ batch => batch.map fun x => ⟨x, "FAILED", none⟩)
    (fun k => handleStr (k + 1)) 3 "q" "jd" 5 5
    (initState [("j", ⟨⟨"a", "f1", "f2", "o"⟩, 0⟩)])
    (fun j k he => by
      have hl := congrArg (fun s : String => s.data.length) he
      simp [handleStr] at hl
      omega)
    (fun k => by
      intro hm
      simp only [initState, List.map_cons, List.map_nil,
        List.mem_singleton] at hm
      have hl := congrArg (fun s : String => s.data.length) hm
      simp [handleStr] at hl
      subst hl
      exact absurd hm (by decide))
    (by decide) (by decide)
  exact ⟨h.1, h.2.1, h.2.2.1, h.2.2.2.1, h.2.2.2.2.1,
    h.2.2.2.2.2 (by
      intro n batch info hm
      obtain ⟨x, hx, rfl⟩ := List.mem_map.mp hm
      exact hx)⟩

/-! ## Shape of the supervisor's printed lines -/

theorem processInfo_out_shape {submitO : Nat → String} {mr : Nat}
    {jq jd : String} {cs zl : Nat} {s : MonState} {info : JobInfo} :
    ∀ line ∈ (processInfo submitO mr jq jd cs zl s info).out,
      line ∈ s.out ∨ PerUnitLine line := by
  intro line hline
  by_cases hc : s.crashed = true
  · rw [processInfo_eq_crashed hc] at hline
    exact Or.inl hline
  rw [Bool.not_eq_true] at hc
  cases hl : lookupKey s.tracker info.jobId with
  | none =>
    rw [processInfo_eq_keyerror hc hl] at hline
    exact Or.inl hline
  | some pj =>
    by_cases hs1 : info.status = "SUCCEEDED"
    · rw [processInfo_eq_succeeded pj hc hl hs1] at hline
      rcases List.mem_append.mp hline with h | h
      · exact Or.inl h
      · rcases List.mem_singleton.mp h with rfl
        exact Or.inr (Or.inl ⟨pj.sample.id, rfl⟩)
    by_cases hs2 : info.status = "FAILED"
    swap
    · rw [processInfo_eq_other pj hc hl hs1 hs2] at hline
      exact Or.inl hline
    by_cases hr : pj.retry_count < mr
    · rw [processInfo_eq_retry pj hc hl hs2 hr] at hline
      rcases List.mem_append.mp hline with h | h
      · exact Or.inl h
      · rcases List.mem_singleton.mp h with rfl
        exact Or.inr (Or.inr (Or.inl ⟨pj.sample.id, _, _, _, rfl⟩))
    · rw [processInfo_eq_permfail pj hc hl hs2 hr] at hline
      rcases List.mem_append.mp hline with h | h
      · exact Or.inl h
      · rcases List.mem_singleton.mp h with rfl
        exact Or.inr (Or.inr (Or.inr ⟨pj.sample.id, _, _, rfl⟩))

theorem foldl_processInfo_out_shape {submitO : Nat → String} {mr : Nat}
    {jq jd : String} {cs zl : Nat} (resp : List JobInfo) {s : MonState} :
    ∀ line ∈ (resp.foldl (processInfo submitO mr jq jd cs zl) s).out,
      line ∈ s.out ∨ PerUnitLine line := by
  induction resp generalizing s with
  | nil => exact fun line h => Or.inl h
  | cons i resp ih =>
    intro line hline
    rw [List.foldl_cons] at hline
    rcases ih line hline with h | h
    · exact processInfo_out_shape line h
    · exact Or.inr h

theorem pollBatch_out_shape {describe : Nat → List String → List JobInfo}
    {submitO : Nat → String} {mr : Nat} {jq jd : String} {cs zl : Nat}
    {s : MonState} (b : List String) :
    ∀ line ∈ (pollBatch describe submitO mr jq jd cs zl s b).out,
      line ∈ s.out ∨ PerUnitLine line := by
  intro line hline
  rw [pollBatch] at hline
  by_cases hc : s.crashed = true
  · rw [if_pos hc] at hline
    exact Or.inl hline
  · rw [if_neg hc] at hline
    exact foldl_processInfo_out_shape
      (s := { s with dLog := s.dLog ++ [b] }) _ line hline

theorem pollRound_out_shape {describe : Nat → List String → List JobInfo}
    {submitO : Nat → String} {mr : Nat} {jq jd : String} {cs zl : Nat}
    {s : MonState} :
    ∀ line ∈ (pollRound describe submitO mr jq jd cs zl s).out,
      line ∈ s.out ∨ PerUnitLine line := by
  rw [pollRound]
  generalize chunksOf 100 (s.tracker.map Prod.fst) = batches
  induction batches generalizing s with
  | nil => exact fun line h => Or.inl h
  | cons b bs ih =>
    intro line hline
    rw [List.foldl_cons] at hline
    rcases ih line hline with h | h
    · exact pollBatch_out_shape b line h
    · exact Or.inr h

theorem monitor_jobs_out_shape {describe : Nat → List String → List JobInfo}
    {submitO : Nat → String} {mr : Nat} {jq jd : String} {cs zl : Nat}
    (fuel : Nat) (s : MonState) :
    ∀ line ∈ (monitor_jobs describe submitO mr jq jd cs zl fuel s).out,
      line ∈ s.out ∨ PerUnitLine line := by
  induction fuel generalizing s with
  | zero => exact fun line h => Or.inl h
  | succ fuel ih =>
    intro line hline
    rw [monitor_jobs_succ] at hline
    by_cases hc : s.crashed = true
    · rw [if_pos hc] at hline
      exact Or.inl hline
    rw [if_neg hc] at hline
    by_cases he : s.tracker.isEmpty = true
    · rw [if_pos he] at hline
      exact Or.inl hline
    rw [if_neg he] at hline
    rcases ih _ line hline with h | h
    · exact pollRound_out_shape line h
    · exact Or.inr h

/-- C6 counterexample: a complete supervision run (three units, all of which
succeed, none permanently failing) prints only per-unit success lines, the
monitoring header and the fixed completion message — no printed line
contains both the succeeded count (3) and the permanently-failed count (0)
as substrings, so no aggregate summary of the two counts is reported. -/
theorem supervisor_no_aggregate_summary_cex :
    monitoringOutput (fun _ batch => batch.map fun x =>
        ⟨x, "SUCCEEDED", none⟩) (fun _ => "n") 3 "q" "jd" 5 5 2
      [("ja", ⟨⟨"a", "f1", "f2", "o"⟩, 0⟩),
       ("jb", ⟨⟨"b", "f1", "f2", "o"⟩, 0⟩),
       ("jc", ⟨⟨"c", "f1", "f2", "o"⟩, 0⟩)] =
      ["\nMonitoring 3 job(s)...\n", "✓ a succeeded", "✓ b succeeded",
       "✓ c succeeded", "\nAll jobs completed!"]
    ∧ (monitor_jobs (fun _ batch => batch.map fun x =>
        ⟨x, "SUCCEEDED", none⟩) (fun _ => "n") 3 "q" "jd" 5 5 2
      (initState [("ja", ⟨⟨"a", "f1", "f2", "o"⟩, 0⟩),
        ("jb", ⟨⟨"b", "f1", "f2", "o"⟩, 0⟩),
        ("jc", ⟨⟨"c", "f1", "f2", "o"⟩, 0⟩)])).tracker = []
    ∧ ¬ ∃ line ∈ monitoringOutput (fun _ batch => batch.map fun x =>
        ⟨x, "SUCCEEDED", none⟩) (fun _ => "n") 3 "q" "jd" 5 5 2
      [("ja", ⟨⟨"a", "f1", "f2", "o"⟩, 0⟩),
       ("jb", ⟨⟨"b", "f1", "f2", "o"⟩, 0⟩),
       ("jc", ⟨⟨"c", "f1", "f2", "o"⟩, 0⟩)],
      (("3" : String).data <:+: line.data ∧
        ("0" : String).data <:+: line.data) := by
  refine ⟨by decide, by decide, by decide⟩

/-- C6 (amended): when supervision finishes without a crash, the process
ends its output with the fixed completion message `"All jobs completed!"`
(which carries no counts), and every line the monitor itself printed is a
per-unit event line (success, retry, or permanent failure); no aggregate
summary of succeeded vs permanently failed counts is produced. -/
theorem supervisor_completion_output
    (describe : Nat → List String → List JobInfo) (submitO : Nat → String)
    (max_retries : Nat) (job_queue job_definition : String)
    (chunk_size zstd_level : Nat) (fuel : Nat) (tracker : Tracker) :
    ((monitor_jobs describe submitO max_retries job_queue job_definition
        chunk_size zstd_level fuel (initState tracker)).crashed = false →
      (monitoringOutput describe submitO max_retries job_queue
        job_definition chunk_size zstd_level fuel tracker).getLast? =
        some "\nAll jobs completed!")
    ∧ (∀ line ∈ (monitor_jobs describe submitO max_retries job_queue
        job_definition chunk_size zstd_level fuel
        (initState tracker)).out, PerUnitLine line) := by
  constructor
  · intro hcr
    rw [monitoringOutput]
    simp only [hcr, Bool.false_eq_true, if_false]
    rw [List.getLast?_concat]
  · intro line hline
    rcases monitor_jobs_out_shape fuel (initState tracker) line hline
      with h | h
    · simp [initState] at h
    · exact h

/-- C6 amended-claim witness: the three-success run ends with the fixed
completion message and its first monitor line is a per-unit success line. -/
theorem supervisor_completion_output_witness :
    (monitoringOutput (fun _ batch => batch.map fun x =>
        ⟨x, "SUCCEEDED", none⟩) (fun _ => "n") 3 "q" "jd" 5 5 2
      [("ja", ⟨⟨"a", "f1", "f2", "o"⟩, 0⟩),
       ("jb", ⟨⟨"b", "f1", "f2", "o"⟩, 0⟩),
       ("jc", ⟨⟨"c", "f1", "f2", "o"⟩, 0⟩)]).getLast? =
      some "\nAll jobs completed!"
    ∧ PerUnitLine "✓ a succeeded" :=
  ⟨(supervisor_completion_output (fun _ batch => batch.map fun x =>
      ⟨x, "SUCCEEDED", none⟩) (fun _ => "n") 3 "q" "jd" 5 5 2
      [("ja", ⟨⟨"a", "f1", "f2", "o"⟩, 0⟩),
       ("jb", ⟨⟨"b", "f1", "f2", "o"⟩, 0⟩),
       ("jc", ⟨⟨"c", "f1", "f2", "o"⟩, 0⟩)]).1 (by decide),
   (supervisor_completion_output (fun _ batch => batch.map fun x =>
      ⟨x, "SUCCEEDED", none⟩) (fun _ => "n") 3 "q" "jd" 5 5 2
      [("ja", ⟨⟨"a", "f1", "f2", "o"⟩, 0⟩),
       ("jb", ⟨⟨"b", "f1", "f2", "o"⟩, 0⟩),
       ("jc", ⟨⟨"c", "f1", "f2", "o"⟩, 0⟩)]).2 "✓ a succeeded" (by decide)⟩

end ReadSizer
